import Mathlib

/-!
Verification development for the robloxHELL streaming deduplication and
rate-gated batch verification pipeline.

The definitions below are a shallow embedding of the TypeScript sources:
the Rotector verification client (constants, backoff, flag classification,
the global 429 gate, `checkMultipleUsers`, `checkLotsOfUsers`), the
scrapers' backoff and the friends stream, and the pipeline driver in
`src/index.ts` (`statusCache`, `persistCache`, `processEntries` with its
`writeStatus` and `flushLookup` closures, and the sequential per-source
run loop of `main`).

Network effects are modelled deterministically: the remote verifier is an
oracle mapping a batch of ids to either a result map or an error
(`checkMultipleUsers` either resolves or rejects), and, at a finer grain,
`checkMultipleUsersRun` replays the retry loop of `checkMultipleUsers`
against an explicit script of HTTP responses.  Float-valued fields of the
data model (confidence scores) are carried as rationals; nothing computes
on them.
-/

namespace RobloxHell

/-! ## Constants (rotector.ts and the scrapers) -/

/-- MAX_HTTP_RETRIES, shared value of rotector.ts, usersScraper.ts and
groupsScraper.ts. -/
def MAX_HTTP_RETRIES : Nat := 5

/-- BASE_RETRY_DELAY_MS. -/
def BASE_RETRY_DELAY_MS : Nat := 1000

/-- MAX_RETRY_DELAY_MS. -/
def MAX_RETRY_DELAY_MS : Nat := 30000

/-- rotector.ts: `retryDelayMs(attempt) = Math.min(MAX_RETRY_DELAY_MS,
BASE_RETRY_DELAY_MS * 2 ** (attempt - 1))`. -/
def retryDelayMs (attempt : Nat) : Nat :=
  min MAX_RETRY_DELAY_MS (BASE_RETRY_DELAY_MS * 2 ^ (attempt - 1))

/-- usersScraper.ts / groupsScraper.ts: `backoffMs(attempt) =
Math.min(MAX_RETRY_DELAY_MS, BASE_RETRY_DELAY_MS * 2 ** attempt)`. -/
def backoffMs (attempt : Nat) : Nat :=
  min MAX_RETRY_DELAY_MS (BASE_RETRY_DELAY_MS * 2 ^ attempt)

/-- index.ts: `LOOKUP_BATCH_SIZE = 50`. -/
def LOOKUP_BATCH_SIZE : Nat := 50

/-- rotector.ts `checkLotsOfUsers`: `BATCH_SIZE = 50`. -/
def BATCH_SIZE : Nat := 50

/-! ## Data model (rotector.ts interfaces) -/

/-- rotector.ts `Reviewer`. -/
structure Reviewer where
  username : String
  displayName : String
deriving DecidableEq, Repr

/-- rotector.ts `Reason`; the float confidence is carried as a rational. -/
structure Reason where
  message : String
  confidence : Rat
  evidence : Option (List String)
deriving DecidableEq, Repr

/-- rotector.ts `UserStatus`.  Absent optional fields are `none`;
`reasons` is the mapping label to Reason as an association list. -/
structure UserStatus where
  id : Nat
  flagType : Nat
  confidence : Option Rat := none
  reasons : Option (List (String × Reason)) := none
  reviewer : Option Reviewer := none
  engineVersion : Option String := none
  versionCompatibility : Option String := none
  lastUpdated : Option Nat := none
deriving DecidableEq, Repr

/-- The JS objects `Record<string, UserStatus>` (batch responses, the
run cache contents) are modelled as association lists keyed by the
numeric id. -/
abbrev StatusMap := List (Nat × UserStatus)

/-- First-binding lookup in a `StatusMap`; a JS `Map.get` /
property read.  Insertions prepend, so the first binding is the most
recent one. -/
def lookupId : StatusMap → Nat → Option UserStatus
  | [], _ => none
  | (k, v) :: rest, key => if k = key then some v else lookupId rest key

/-- A single `Map.set` / property assignment: the new binding shadows
any earlier one under first-binding lookup. -/
def setId (m : StatusMap) (k : Nat) (v : UserStatus) : StatusMap :=
  (k, v) :: m

/-- Iterating `for (const [k, v] of Object.entries(src)) dst.set(k, v)`
(the body of `persistCache`) and `Object.assign(dst, src)` both write
every binding of `src` into `dst` in order, later bindings winning. -/
def assignAll (m : StatusMap) (src : StatusMap) : StatusMap :=
  src.foldl (fun acc p => setId acc p.1 p.2) m

/-- index.ts `persistCache`: copy every entry of a lookup result into the
run cache. -/
def persistCache (cache : StatusMap) (results : StatusMap) : StatusMap :=
  assignAll cache results

/-- rotector.ts `checkLotsOfUsers`: `Object.assign(userStatuses, data)`. -/
def objectAssign (target : StatusMap) (data : StatusMap) : StatusMap :=
  assignAll target data

/-! ## Flag classification (rotector.ts) -/

/-- rotector.ts `UserFlagStatus` enum. -/
inductive UserFlagStatus
  | SAFE
  | PENDING
  | UNSAFE
  | QUEUED
  | INTEGRATION
  | MIXED
  | PAST_OFFENDER
deriving DecidableEq, Repr

/-- rotector.ts `flagTypeToEnum`: strict parse, `throw new Error` on an
unknown value is an `Except.error`. -/
def flagTypeToEnum (f : Nat) : Except String UserFlagStatus :=
  match f with
  | 0 => Except.ok UserFlagStatus.SAFE
  | 1 => Except.ok UserFlagStatus.PENDING
  | 2 => Except.ok UserFlagStatus.UNSAFE
  | 3 => Except.ok UserFlagStatus.QUEUED
  | 4 => Except.ok UserFlagStatus.INTEGRATION
  | 5 => Except.ok UserFlagStatus.MIXED
  | 6 => Except.ok UserFlagStatus.PAST_OFFENDER
  | _ => Except.error ("Unknown flag type: " ++ toString f)

/-- rotector.ts `flagTypeToString`: the reverse enum lookup `f in
UserFlagStatus` succeeds exactly for 0..6 and yields the enum member
name; every other value falls through to "UNKNOWN". -/
def flagTypeToString (f : Nat) : String :=
  match f with
  | 0 => "SAFE"
  | 1 => "PENDING"
  | 2 => "UNSAFE"
  | 3 => "QUEUED"
  | 4 => "INTEGRATION"
  | 5 => "MIXED"
  | 6 => "PAST_OFFENDER"
  | _ => "UNKNOWN"

/-! ## Batch slicing

`checkLotsOfUsers` builds its batches with
`for (let i = 0; i < ids.length; i += BATCH_SIZE)
   batches.push(ids.slice(i, i + BATCH_SIZE))`,
i.e. it chops the list into consecutive runs of `BATCH_SIZE`. -/

/-- Chop a list into consecutive runs of `B` elements: the loop above
runs `⌈l.length / B⌉` times with slice start `i * B`, and
`slice(i, i + B)` is `(l.drop (i * B)).take B`. -/
def chunkList (B : Nat) (l : List Nat) : List (List Nat) :=
  (List.range ((l.length + B - 1) / B)).map (fun i => (l.drop (i * B)).take B)

/-- Recursive reformulation of the slicing loop, used for induction.
For `B = 0` it still terminates and is never used. -/
def chunkListRec (B : Nat) : List Nat → List (List Nat)
  | [] => []
  | x :: xs => ((x :: xs).take B) :: chunkListRec B (xs.drop (B - 1))
termination_by l => l.length
decreasing_by
  simp only [List.length_cons, List.length_drop]
  omega

/-! ## Global rate-limit gate (rotector.ts)

`global429Lock` is either `null` (open) or a promise that resolves when a
`sleep(waitMs)` started at the trip time finishes.  We model it as an
optional absolute deadline in milliseconds.  `activateGlobal429` sets the
lock only when none is active (`if (!global429Lock)`), so a trip while
halted leaves the existing deadline untouched; the lock clears itself
when its deadline elapses. -/

/-- The state of `global429Lock`: `none` is open, `some d` is halted
until absolute time `d`. -/
structure GateState where
  lock : Option Nat
deriving DecidableEq, Repr

/-- The body of `activateGlobal429(waitMs)` called at time `now`: set the
deadline `now + waitMs` only if no lock is active. -/
def tripGate (now : Nat) (g : GateState) (waitMs : Nat) : GateState :=
  match g.lock with
  | some _ => g
  | none => { lock := some (now + waitMs) }

/-- The self-clearing of the lock: the async closure inside
`activateGlobal429` nulls `global429Lock` once its sleep deadline has
elapsed. -/
def clearIfElapsed (now : Nat) (g : GateState) : GateState :=
  match g.lock with
  | some d => if d ≤ now then { lock := none } else g
  | none => g

/-- One observer of a rate-limit signal at time `e.1` asking for a
cooldown of `e.2` ms: the lock clears itself if its deadline has passed,
then `activateGlobal429` runs. -/
def gateStep (g : GateState) (e : Nat × Nat) : GateState :=
  tripGate e.1 (clearIfElapsed e.1 g) e.2

/-- `waitForGlobal429` called at time `now`: the caller resumes
immediately when the gate is open (or its deadline has already passed and
the lock cleared), and otherwise at the deadline of the active lock.
Returns the resume time. -/
def awaitGate (now : Nat) (g : GateState) : Nat :=
  match (clearIfElapsed now g).lock with
  | some d => d
  | none => now

/-- The cooldown `checkMultipleUsers` computes from a 429 response:
`Number(response.headers.get("Retry-After")) || 10` falls back to 10 when
the header is absent or reads as 0, then `retryAfter * 1000 + 2500`. -/
def cooldown429 (retryAfter : Option Nat) : Nat :=
  (match retryAfter with
   | some n => if n = 0 then 10 else n
   | none => 10) * 1000 + 2500

/-! ## The retry loop of `checkMultipleUsers`

The loop is replayed against a script of HTTP responses, one per loop
iteration.  Each iteration awaits the gate, issues the request and
handles the response exactly as the source does; sleeps and gate trips
are recorded.  An exhausted script means the loop would keep running. -/

/-- One observed HTTP interaction of the `checkMultipleUsers` loop. -/
inductive RotResponse
  /-- `fetch` threw (transport failure). -/
  | netError (msg : String)
  /-- `response.ok` with a parsed `BatchApiResponse`: `success` flag,
  optional `data`, optional `error` string. -/
  | httpOk (success : Bool) (data : Option StatusMap) (error : Option String)
  /-- `response.status === 429` with the parsed Retry-After hint. -/
  | http429 (retryAfter : Option Nat)
  /-- any other non-ok status. -/
  | httpErr (status : Nat)
deriving DecidableEq, Repr

/-- The mutable locals and recorded effects of one `checkMultipleUsers`
call: `consecutiveFailures`, the backoff sleeps performed, and the
cooldowns passed to `activateGlobal429`. -/
structure ClientState where
  consecutiveFailures : Nat
  sleeps : List Nat
  trips : List Nat
deriving DecidableEq, Repr

/-- Outcome of replaying the loop against a finite script. -/
inductive ClientOutcome
  /-- the function returned `result.data`. -/
  | ok (data : StatusMap) (st : ClientState)
  /-- the function threw. -/
  | thrown (msg : String) (st : ClientState)
  /-- the script ran out: the loop is still retrying. -/
  | looping (st : ClientState)
deriving DecidableEq, Repr

/-- Replay of the `while (true)` loop of `checkMultipleUsers`. -/
def checkMultipleUsersRun (st : ClientState) : List RotResponse → ClientOutcome
  | [] => ClientOutcome.looping st
  | r :: rest =>
    match r with
    | RotResponse.netError m =>
      let cf := st.consecutiveFailures + 1
      if MAX_HTTP_RETRIES < cf then
        ClientOutcome.thrown ("Network error contacting Rotector: " ++ m)
          { st with consecutiveFailures := cf }
      else
        checkMultipleUsersRun
          { st with consecutiveFailures := cf, sleeps := st.sleeps ++ [retryDelayMs cf] } rest
    | RotResponse.httpOk success data err =>
      let st := { st with consecutiveFailures := 0 }
      match success, data with
      | true, some d => ClientOutcome.ok d st
      | true, none => ClientOutcome.thrown (err.getD "Failed to fetch users data") st
      | false, _ => ClientOutcome.thrown (err.getD "Failed to fetch users data") st
    | RotResponse.http429 retryAfter =>
      let st := { st with consecutiveFailures := 0 }
      checkMultipleUsersRun { st with trips := st.trips ++ [cooldown429 retryAfter] } rest
    | RotResponse.httpErr status =>
      let cf := st.consecutiveFailures + 1
      if MAX_HTTP_RETRIES < cf then
        ClientOutcome.thrown ("HTTP error! status: " ++ toString status)
          { st with consecutiveFailures := cf }
      else
        checkMultipleUsersRun
          { st with consecutiveFailures := cf, sleeps := st.sleeps ++ [retryDelayMs cf] } rest

/-! ## Batch processor `checkLotsOfUsers` (rotector.ts)

At the interface level one call of `checkMultipleUsers` on a batch
either resolves with a result map or rejects with an error; an `Oracle`
fixes that outcome per batch.  `checkLotsOfUsers` slices its input into
`BATCH_SIZE` runs, submits each, swallows each rejection with `.catch`,
and `Object.assign`s every resolved map into the accumulator.  It never
rejects: its only awaited value is `Promise.all` over caught tasks. -/

/-- Deterministic outcome of `checkMultipleUsers` per submitted batch. -/
abbrev Oracle := List Nat → Except String StatusMap

/-- The batches `checkLotsOfUsers` builds from its input. -/
def lotsBatches (ids : List Nat) : List (List Nat) :=
  chunkList BATCH_SIZE ids

/-- Joining the per-batch tasks: a resolved batch is merged via
`Object.assign`, a rejected one is swallowed by `.catch`. -/
def runBatches (oracle : Oracle) : List (List Nat) → StatusMap → StatusMap
  | [], acc => acc
  | b :: bs, acc =>
    match oracle b with
    | Except.ok d => runBatches oracle bs (objectAssign acc d)
    | Except.error _ => runBatches oracle bs acc

/-- rotector.ts `checkLotsOfUsers`. -/
def checkLotsOfUsers (oracle : Oracle) (ids : List Nat) : StatusMap :=
  runBatches oracle (lotsBatches ids) []

/-- Modelled from the spec (for the refinement statement of the batch
processor): "the returned record is exactly the merge of the data
returned by the successful batches" — the successful batches' data, in
order, merged into an empty record. -/
def mergeOfSuccesses (oracle : Oracle) (ids : List Nat) : StatusMap :=
  ((lotsBatches ids).filterMap (fun b => (oracle b).toOption)).foldl objectAssign []

/-! ## Pipeline driver `processEntries` (index.ts)

The driver consumes one entry stream sequentially: every awaited network
call completes before the next entry is taken, so the run is a fold.
`statusCache` is the module-level run cache shared across sources.  The
`rotector` NDJSON sink is the list of records `writeStatus` appended, in
order; `warns` records the ids reported as "missing Rotector data". -/

/-- One record appended to the per-source `rotector` sink by
`writeStatus`: the full status plus the derived flag label. -/
structure SinkRecord where
  status : UserStatus
  flagLabel : String
deriving DecidableEq, Repr

/-- The per-source mutable state of `processEntries`, together with the
shared `statusCache` and the recorded effects (sink appends, warnings,
batch submissions to the verification client). -/
structure PEState where
  statusCache : StatusMap
  seenIds : List Nat
  pendingLookup : List Nat
  sink : List SinkRecord
  warns : List Nat
  submitted : List (List Nat)
  collected : List Nat
  newlyChecked : Nat
  totalCollected : Nat
  uniqueUsers : Nat
  notSafeMatches : Nat
  flagBreakdown : List (String × Nat)
deriving DecidableEq, Repr

/-- `flagBreakdown[flagLabel] = (flagBreakdown[flagLabel] ?? 0) + 1`. -/
def bumpLabel : List (String × Nat) → String → List (String × Nat)
  | [], label => [(label, 1)]
  | (l, n) :: rest, label =>
    if l = label then (l, n + 1) :: rest else (l, n) :: bumpLabel rest label

/-- index.ts `writeStatus`: classify via `flagTypeToString`, update the
breakdown and the counter of flagged users (source name `unsafeMatches`),
append one NDJSON record. -/
def writeStatusM (s : PEState) (status : UserStatus) : PEState :=
  let flagLabel := flagTypeToString status.flagType
  { s with
    flagBreakdown := bumpLabel s.flagBreakdown flagLabel,
    notSafeMatches := if status.flagType = 0 then s.notSafeMatches else s.notSafeMatches + 1,
    sink := s.sink ++ [{ status := status, flagLabel := flagLabel }] }

/-- The result loop of `flushLookup`: for each id of the flushed chunk
write its status when the lookup resolved it, otherwise warn about the
missing Rotector data. -/
def writeChunk (lookupResults : StatusMap) (acc : PEState) (chunk : List Nat) : PEState :=
  chunk.foldl (fun acc id =>
    match lookupId lookupResults id with
    | some st => writeStatusM acc st
    | none => { acc with warns := acc.warns ++ [id] }) acc

/-- index.ts `flushLookup`: splice the whole pending buffer, hand it to
`checkLotsOfUsers` (whose batches are `lotsBatches chunk`), persist the
results into the run cache, then write one record per resolved id and a
warning per missing id, in buffer order. -/
def flushLookup (oracle : Oracle) (s : PEState) : PEState :=
  if s.pendingLookup = [] then s
  else
    let chunk := s.pendingLookup
    let lookupResults := checkLotsOfUsers oracle chunk
    let s1 := { s with
      pendingLookup := ([] : List Nat),
      submitted := s.submitted ++ lotsBatches chunk,
      statusCache := persistCache s.statusCache lookupResults,
      newlyChecked := s.newlyChecked + chunk.length }
    writeChunk lookupResults s1 chunk

/-- The body of the `for await` loop of `processEntries` for one entry:
count it, discard if already seen in this stream, otherwise mark seen and
either serve it from the run cache or buffer it, flushing a full
buffer. -/
def processEntry (oracle : Oracle) (s : PEState) (userId : Nat) : PEState :=
  let s := { s with
    totalCollected := s.totalCollected + 1,
    collected := s.collected ++ [userId] }
  if userId ∈ s.seenIds then s
  else
    let s := { s with seenIds := userId :: s.seenIds, uniqueUsers := s.uniqueUsers + 1 }
    match lookupId s.statusCache userId with
    | some cached => writeStatusM s cached
    | none =>
      let s := { s with pendingLookup := s.pendingLookup ++ [userId] }
      if LOOKUP_BATCH_SIZE ≤ s.pendingLookup.length then flushLookup oracle s else s

/-- Fresh per-source state over the shared run cache. -/
def initState (cache0 : StatusMap) : PEState :=
  { statusCache := cache0, seenIds := [], pendingLookup := [], sink := [],
    warns := [], submitted := [], collected := [], newlyChecked := 0,
    totalCollected := 0, uniqueUsers := 0, notSafeMatches := 0, flagBreakdown := [] }

/-- index.ts `processEntries`: fold the stream, then flush the final
remainder. -/
def processEntries (oracle : Oracle) (cache0 : StatusMap) (entries : List Nat) : PEState :=
  flushLookup oracle (entries.foldl (processEntry oracle) (initState cache0))

/-- The run-level state of `main`: the shared `statusCache` and the
finished per-source states, in processing order. -/
structure RunState where
  statusCache : StatusMap
  sources : List PEState
deriving Repr

/-- The sequential source loop of `main`: each source is processed to
completion against the cache left by its predecessors. -/
def runSources (oracle : Oracle) (srcs : List (List Nat)) : RunState :=
  srcs.foldl
    (fun r src =>
      let s := processEntries oracle r.statusCache src
      { statusCache := s.statusCache, sources := r.sources ++ [s] })
    { statusCache := [], sources := [] }

/-- All batches submitted to the verification client over a whole run. -/
def runSubmitted (r : RunState) : List (List Nat) :=
  (r.sources.map PEState.submitted).flatten

/-- Number of sink records a source wrote for a given id. -/
def sinkCountId (sink : List SinkRecord) (x : Nat) : Nat :=
  sink.countP (fun rcd => rcd.status.id == x)

/-! ## Friends stream (usersScraper.ts)

`streamFriends` first yields the subject's own id (`yield Number(userid)`)
and then every id of every fetched friends page, page by page. -/

/-- usersScraper.ts `streamFriends`, with the remote pagination supplied
as the list of pages (each page the ids of its `PageItems`). -/
def streamFriends (userid : Nat) (pages : List (List Nat)) : List Nat :=
  userid :: pages.flatten

/-! ## Lemmas about batch slicing -/

/-- The slice loop produces nothing on an empty input. -/
theorem chunkList_nil (B : Nat) : chunkList B [] = [] := by
  rw [chunkList]
  rcases Nat.eq_zero_or_pos B with rfl | hB
  · simp
  · rw [List.length_nil, Nat.div_eq_of_lt (by omega)]
    simp

/-- The slice loop peels one leading slice of `B` elements per step. -/
theorem chunkList_cons (B : Nat) (hB : 0 < B) (x : Nat) (xs : List Nat) :
    chunkList B (x :: xs)
      = ((x :: xs).take B) :: chunkList B ((x :: xs).drop B) := by
  rw [chunkList, chunkList]
  have hcount : ((x :: xs).length + B - 1) / B
      = (((x :: xs).drop B).length + B - 1) / B + 1 := by
    rw [List.length_drop, List.length_cons]
    rcases Nat.le_total (xs.length + 1) B with h | h
    · have h1 : xs.length + 1 + B - 1 = xs.length + B := by omega
      have h2 : xs.length + 1 - B = 0 := by omega
      rw [h1, h2, Nat.add_div_right _ hB, Nat.div_eq_of_lt (by omega),
        Nat.zero_add, Nat.div_eq_of_lt (by omega)]
    · have h1 : xs.length + 1 + B - 1 = (xs.length + 1 - B + B - 1) + B := by omega
      rw [h1, Nat.add_div_right _ hB]
  rw [hcount, List.range_succ_eq_map, List.map_cons, List.map_map]
  congr 1
  · simp
  · congr 1
    funext i
    simp only [Function.comp]
    rw [List.drop_drop]
    congr 2
    rw [Nat.succ_mul]
    ring

/-- The recursive reformulation agrees with the slice loop. -/
theorem chunkRec_eq (B : Nat) (hB : 0 < B) (l : List Nat) :
    chunkListRec B l = chunkList B l := by
  induction l using chunkListRec.induct B with
  | case1 => rw [chunkListRec, chunkList_nil]
  | case2 x xs ih =>
    obtain ⟨B', rfl⟩ : ∃ B', B = B' + 1 := ⟨B - 1, by omega⟩
    simp only [Nat.add_sub_cancel] at ih
    rw [chunkListRec, chunkList_cons _ hB, List.drop_succ_cons]
    simp only [Nat.add_sub_cancel]
    rw [ih]

/-- Concatenating the slices gives back the input: batches partition the
id list in order. -/
theorem chunk_flatten (B : Nat) (hB : 0 < B) (l : List Nat) :
    (chunkList B l).flatten = l := by
  rw [← chunkRec_eq B hB]
  induction l using chunkListRec.induct B with
  | case1 => simp [chunkListRec]
  | case2 x xs ih =>
    obtain ⟨B', rfl⟩ : ∃ B', B = B' + 1 := ⟨B - 1, by omega⟩
    simp only [Nat.add_sub_cancel] at ih
    rw [chunkListRec]
    simp only [Nat.add_sub_cancel, List.flatten_cons, ih, List.take_succ_cons]
    simp [List.take_append_drop]

/-- The slice sizes: `l.length / B` full slices of size `B` followed by
one slice of `l.length % B` when the remainder is nonzero. -/
theorem chunk_map_length (B : Nat) (hB : 0 < B) (l : List Nat) :
    (chunkList B l).map List.length
      = List.replicate (l.length / B) B
        ++ (if l.length % B = 0 then [] else [l.length % B]) := by
  rw [← chunkRec_eq B hB]
  induction l using chunkListRec.induct B with
  | case1 => simp [chunkListRec]
  | case2 x xs ih =>
    obtain ⟨B', rfl⟩ : ∃ B', B = B' + 1 := ⟨B - 1, by omega⟩
    simp only [Nat.add_sub_cancel] at ih
    have hdroplen : (xs.drop B').length = xs.length - B' := List.length_drop _ _
    rw [hdroplen] at ih
    rw [chunkListRec]
    simp only [Nat.add_sub_cancel, List.map_cons, ih, List.length_cons]
    rcases Nat.lt_or_ge xs.length B' with h | h
    · have d0 : (xs.length + 1) / (B' + 1) = 0 := Nat.div_eq_of_lt (by omega)
      have m0 : (xs.length + 1) % (B' + 1) = xs.length + 1 := Nat.mod_eq_of_lt (by omega)
      have hsub : xs.length - B' = 0 := by omega
      rw [d0, m0, hsub]
      simp [List.length_take]
      omega
    · have hsplit : xs.length + 1 = (xs.length - B') + (B' + 1) := by omega
      rw [hsplit, Nat.add_div_right _ (Nat.succ_pos B'), Nat.add_mod_right,
        List.replicate_succ]
      have htake : ((x :: xs).take (B' + 1)).length = B' + 1 := by
        rw [List.length_take, List.length_cons]; omega
      rw [htake]
      simp

/-- A nonempty list no longer than the batch size is a single batch. -/
theorem chunk_single (B : Nat) (hB : 0 < B) (l : List Nat) (hne : l ≠ [])
    (hle : l.length ≤ B) : chunkList B l = [l] := by
  rw [← chunkRec_eq B hB]
  cases l with
  | nil => exact absurd rfl hne
  | cons x xs =>
    rw [chunkListRec]
    have h1 : (x :: xs).take B = x :: xs := List.take_of_length_le hle
    have h2 : xs.drop (B - 1) = [] := by
      rw [List.drop_eq_nil_iff]
      simp at hle ⊢; omega
    rw [h1, h2, chunkListRec]

/-- A full-size leading block is sliced off as the first batch. -/
theorem chunk_cons_of_length (B : Nat) (hB : 0 < B) (p rest : List Nat)
    (hp : p.length = B) : chunkList B (p ++ rest) = p :: chunkList B rest := by
  rw [← chunkRec_eq B hB, ← chunkRec_eq B hB]
  cases p with
  | nil => simp at hp; omega
  | cons x xs =>
    rw [List.cons_append, chunkListRec]
    have h1 : (x :: (xs ++ rest)).take B = x :: xs := by
      rw [← List.cons_append]
      exact List.take_left' hp
    have h2 : (xs ++ rest).drop (B - 1) = rest :=
      List.drop_left' (by simp at hp; omega)
    rw [h1, h2]

/-! ## Lemmas about the association-map operations -/

/-- Lookup after a single `set`. -/
theorem lookupId_setId (m : StatusMap) (k k' : Nat) (v : UserStatus) :
    lookupId (setId m k v) k' = if k = k' then some v else lookupId m k' := rfl

/-- A successful lookup comes from a binding of the map. -/
theorem lookupId_mem (m : StatusMap) (k : Nat) (v : UserStatus)
    (h : lookupId m k = some v) : (k, v) ∈ m := by
  induction m with
  | nil => simp [lookupId] at h
  | cons p rest ih =>
    obtain ⟨pk, pv⟩ := p
    rw [lookupId] at h
    by_cases hk : pk = k
    · subst hk
      simp at h
      simp [h]
    · simp [hk] at h
      exact List.mem_cons_of_mem _ (ih h)

/-- A key is present after merging iff it is present in either operand. -/
theorem assignAll_isSome (m src : StatusMap) (k : Nat) :
    (lookupId (assignAll m src) k).isSome
      ↔ (lookupId src k).isSome ∨ (lookupId m k).isSome := by
  induction src generalizing m with
  | nil => simp [assignAll, lookupId]
  | cons q rest ih =>
    obtain ⟨qk, qv⟩ := q
    rw [show assignAll m ((qk, qv) :: rest) = assignAll (setId m qk qv) rest from rfl,
      ih, lookupId]
    by_cases hq : qk = k <;> simp [lookupId_setId, hq]

/-- Merging with a map that lacks the key leaves its binding unchanged. -/
theorem lookupId_assignAll_of_none (m src : StatusMap) (k : Nat)
    (h : lookupId src k = none) : lookupId (assignAll m src) k = lookupId m k := by
  induction src generalizing m with
  | nil => rfl
  | cons q rest ih =>
    obtain ⟨qk, qv⟩ := q
    rw [lookupId] at h
    by_cases hq : qk = k
    · simp [hq] at h
    · rw [show assignAll m ((qk, qv) :: rest) = assignAll (setId m qk qv) rest from rfl,
        ih _ (by simpa [hq] using h), lookupId_setId, if_neg hq]

/-- Every binding of a merged map comes from one of the operands. -/
theorem mem_assignAll (m src : StatusMap) (p : Nat × UserStatus)
    (h : p ∈ assignAll m src) : p ∈ m ∨ p ∈ src := by
  induction src generalizing m with
  | nil => exact Or.inl h
  | cons q rest ih =>
    rcases ih (setId m q.1 q.2) h with h' | h'
    · rcases List.mem_cons.mp h' with h'' | h''
      · exact Or.inr (by simp [h''])
      · exact Or.inl h''
    · exact Or.inr (List.mem_cons_of_mem _ h')

/-- Every key of the map `runBatches` accumulates is either an
accumulator key or a key of some successfully resolved batch's data. -/
theorem runBatches_isSome (oracle : Oracle) (bs : List (List Nat))
    (acc : StatusMap) (k : Nat) :
    (lookupId (runBatches oracle bs acc) k).isSome
      ↔ (∃ b ∈ bs, ∃ d, oracle b = Except.ok d ∧ (lookupId d k).isSome)
        ∨ (lookupId acc k).isSome := by
  induction bs generalizing acc with
  | nil => simp [runBatches]
  | cons b rest ih =>
    rw [runBatches]
    cases hb : oracle b with
    | ok d =>
      rw [ih, show objectAssign acc d = assignAll acc d from rfl, assignAll_isSome]
      constructor
      · rintro (⟨b', hb', hd'⟩ | hd | hacc)
        · exact Or.inl ⟨b', List.mem_cons_of_mem _ hb', hd'⟩
        · exact Or.inl ⟨b, List.mem_cons_self _ _, d, hb, hd⟩
        · exact Or.inr hacc
      · rintro (⟨b', hb', d', hd', hk⟩ | hacc)
        · rcases List.mem_cons.mp hb' with rfl | hb''
          · rw [hb] at hd'
            cases hd'
            exact Or.inr (Or.inl hk)
          · exact Or.inl ⟨b', hb'', d', hd', hk⟩
        · exact Or.inr (Or.inr hacc)
    | error e =>
      rw [ih]
      constructor
      · rintro (⟨b', hb', hd'⟩ | hacc)
        · exact Or.inl ⟨b', List.mem_cons_of_mem _ hb', hd'⟩
        · exact Or.inr hacc
      · rintro (⟨b', hb', d', hd', hk⟩ | hacc)
        · rcases List.mem_cons.mp hb' with rfl | hb''
          · rw [hb] at hd'
            cases hd'
          · exact Or.inl ⟨b', hb'', d', hd', hk⟩
        · exact Or.inr hacc

/-- Every binding `runBatches` accumulates comes from the accumulator or
from a successfully resolved batch's data. -/
theorem mem_runBatches (oracle : Oracle) (bs : List (List Nat))
    (acc : StatusMap) (p : Nat × UserStatus)
    (h : p ∈ runBatches oracle bs acc) :
    p ∈ acc ∨ ∃ b ∈ bs, ∃ d, oracle b = Except.ok d ∧ p ∈ d := by
  induction bs generalizing acc with
  | nil => exact Or.inl h
  | cons b rest ih =>
    rw [runBatches] at h
    cases hb : oracle b with
    | ok d =>
      rw [hb] at h
      rcases ih _ h with h' | ⟨b', hb', d', hd', hp⟩
      · rcases mem_assignAll _ _ _ h' with h'' | h''
        · exact Or.inl h''
        · exact Or.inr ⟨b, List.mem_cons_self _ _, d, hb, h''⟩
      · exact Or.inr ⟨b', List.mem_cons_of_mem _ hb', d', hd', hp⟩
    | error e =>
      rw [hb] at h
      rcases ih _ h with h' | ⟨b', hb', d', hd', hp⟩
      · exact Or.inl h'
      · exact Or.inr ⟨b', List.mem_cons_of_mem _ hb', d', hd', hp⟩

/-- Well-formed result maps: every binding's status carries the key as
its id (the remote service keys each `UserStatus` by its own user id). -/
def wfMap (m : StatusMap) : Prop := ∀ p ∈ m, p.2.id = p.1

/-- A successful lookup in a well-formed map yields a status bearing the
looked-up id. -/
theorem wfMap_lookup (m : StatusMap) (hm : wfMap m) (k : Nat) (v : UserStatus)
    (h : lookupId m k = some v) : v.id = k :=
  hm _ (lookupId_mem m k v h)

/-! ## Structural lemmas about the pipeline driver -/

/-- `writeStatus` touches only the breakdown, the flagged counter and the
sink. -/
theorem writeStatusM_parts (s : PEState) (st : UserStatus) :
    (writeStatusM s st).seenIds = s.seenIds ∧
    (writeStatusM s st).pendingLookup = s.pendingLookup ∧
    (writeStatusM s st).statusCache = s.statusCache ∧
    (writeStatusM s st).submitted = s.submitted ∧
    (writeStatusM s st).warns = s.warns := by
  simp [writeStatusM]

/-- The count of sink records bearing id `x` after one `writeStatus`. -/
theorem writeStatusM_sinkCount (s : PEState) (st : UserStatus) (x : Nat) :
    sinkCountId (writeStatusM s st).sink x
      = sinkCountId s.sink x + (if st.id = x then 1 else 0) := by
  simp [writeStatusM, sinkCountId, List.countP_append, List.countP_cons]

theorem writeChunk_nil (R : StatusMap) (acc : PEState) : writeChunk R acc [] = acc := rfl

theorem writeChunk_cons (R : StatusMap) (acc : PEState) (c : Nat) (cs : List Nat) :
    writeChunk R acc (c :: cs)
      = writeChunk R
          (match lookupId R c with
           | some st => writeStatusM acc st
           | none => { acc with warns := acc.warns ++ [c] }) cs := rfl

/-- The result loop never touches the seen set, the pending buffer, the
cache or the submission trace. -/
theorem writeChunk_parts (R : StatusMap) (chunk : List Nat) (acc : PEState) :
    (writeChunk R acc chunk).seenIds = acc.seenIds ∧
    (writeChunk R acc chunk).pendingLookup = acc.pendingLookup ∧
    (writeChunk R acc chunk).statusCache = acc.statusCache ∧
    (writeChunk R acc chunk).submitted = acc.submitted := by
  induction chunk generalizing acc with
  | nil => exact ⟨rfl, rfl, rfl, rfl⟩
  | cons c cs ih =>
    rw [writeChunk_cons]
    cases h : lookupId R c with
    | none =>
      simp only [h]
      simpa using ih { acc with warns := acc.warns ++ [c] }
    | some st =>
      simp only [h]
      have := ih (writeStatusM acc st)
      simpa [writeStatusM] using this

/-- Warnings already present survive the result loop. -/
theorem writeChunk_warns_mono (R : StatusMap) (chunk : List Nat) (acc : PEState)
    (a : Nat) (ha : a ∈ acc.warns) : a ∈ (writeChunk R acc chunk).warns := by
  induction chunk generalizing acc with
  | nil => exact ha
  | cons c cs ih =>
    rw [writeChunk_cons]
    cases h : lookupId R c with
    | none =>
      simp only [h]
      exact ih _ (by simp [ha])
    | some st =>
      simp only [h]
      exact ih _ (by simp [writeStatusM, ha])

/-- Every chunk id the lookup left unresolved is warned about. -/
theorem writeChunk_warns_mem (R : StatusMap) (chunk : List Nat) (acc : PEState)
    (c : Nat) (hc : c ∈ chunk) (hnone : lookupId R c = none) :
    c ∈ (writeChunk R acc chunk).warns := by
  induction chunk generalizing acc with
  | nil => cases hc
  | cons c' cs ih =>
    rw [writeChunk_cons]
    rcases List.mem_cons.mp hc with rfl | hc'
    · rw [hnone]
      exact writeChunk_warns_mono _ _ _ _ (by simp)
    · cases h : lookupId R c' <;> simp only [h] <;> exact ih _ hc'

/-- If no chunk id resolves to a status bearing id `x`, the result loop
does not change the count of `x`-records. -/
theorem writeChunk_sinkCount_eq (R : StatusMap) (chunk : List Nat) (acc : PEState)
    (x : Nat) (hx : ∀ c ∈ chunk, ∀ st, lookupId R c = some st → st.id ≠ x) :
    sinkCountId (writeChunk R acc chunk).sink x = sinkCountId acc.sink x := by
  induction chunk generalizing acc with
  | nil => rfl
  | cons c cs ih =>
    rw [writeChunk_cons]
    cases h : lookupId R c with
    | none =>
      simp only [h]
      rw [ih _ (fun c' hc' => hx c' (List.mem_cons_of_mem _ hc'))]
    | some st =>
      simp only [h]
      rw [ih _ (fun c' hc' => hx c' (List.mem_cons_of_mem _ hc'))]
      rw [writeStatusM_sinkCount]
      have := hx c (List.mem_cons_self _ _) st h
      simp [this]

/-- The count of `x`-records never decreases through the result loop. -/
theorem writeChunk_sinkCount_mono (R : StatusMap) (chunk : List Nat) (acc : PEState)
    (x : Nat) : sinkCountId acc.sink x ≤ sinkCountId (writeChunk R acc chunk).sink x := by
  induction chunk generalizing acc with
  | nil => exact Nat.le_refl _
  | cons c cs ih =>
    rw [writeChunk_cons]
    cases h : lookupId R c with
    | none =>
      simp only [h]
      exact Nat.le_trans (by simp [sinkCountId]) (ih _)
    | some st =>
      simp only [h]
      refine Nat.le_trans ?_ (ih _)
      rw [writeStatusM_sinkCount]
      omega

/-- A chunk id the lookup resolved gets a record counted for it when its
status carries its id (well-formed results). -/
theorem writeChunk_sinkCount_ge (R : StatusMap) (chunk : List Nat) (acc : PEState)
    (x : Nat) (hwf : wfMap R) (hx : x ∈ chunk) (hr : (lookupId R x).isSome) :
    1 ≤ sinkCountId (writeChunk R acc chunk).sink x := by
  induction chunk generalizing acc with
  | nil => cases hx
  | cons c cs ih =>
    rw [writeChunk_cons]
    rcases List.mem_cons.mp hx with rfl | hx'
    · obtain ⟨st, hst⟩ := Option.isSome_iff_exists.mp hr
      rw [hst]
      have hid : st.id = x := wfMap_lookup _ hwf _ _ hst
      refine Nat.le_trans ?_ (writeChunk_sinkCount_mono _ _ _ _)
      rw [writeStatusM_sinkCount]
      simp [hid]
    · cases h : lookupId R c <;> simp only [h] <;> exact ih _ hx'

theorem flushLookup_of_nil (oracle : Oracle) (s : PEState)
    (h : s.pendingLookup = []) : flushLookup oracle s = s := by
  rw [flushLookup, if_pos h]

theorem flushLookup_eq (oracle : Oracle) (s : PEState)
    (h : ¬ s.pendingLookup = []) :
    flushLookup oracle s
      = writeChunk (checkLotsOfUsers oracle s.pendingLookup)
          { s with
            pendingLookup := ([] : List Nat),
            submitted := s.submitted ++ lotsBatches s.pendingLookup,
            statusCache := persistCache s.statusCache
              (checkLotsOfUsers oracle s.pendingLookup),
            newlyChecked := s.newlyChecked + s.pendingLookup.length }
          s.pendingLookup := by
  rw [flushLookup, if_neg h]

/-- A flush leaves the buffer empty and the seen set unchanged. -/
theorem flushLookup_parts (oracle : Oracle) (s : PEState) :
    (flushLookup oracle s).pendingLookup = [] ∧
    (flushLookup oracle s).seenIds = s.seenIds := by
  by_cases h : s.pendingLookup = []
  · rw [flushLookup_of_nil _ _ h]
    exact ⟨h, rfl⟩
  · rw [flushLookup_eq _ _ h]
    have := writeChunk_parts (checkLotsOfUsers oracle s.pendingLookup) s.pendingLookup
    exact ⟨(this _).2.1, (this _).1⟩

/-- Each processed entry ends up in the seen set, and the seen set only
grows. -/
theorem processEntry_seen_mem (oracle : Oracle) (s : PEState) (e a : Nat)
    (h : a = e ∨ a ∈ s.seenIds) : a ∈ (processEntry oracle s e).seenIds := by
  simp only [processEntry]
  by_cases he : e ∈ s.seenIds
  · rw [if_pos he]
    rcases h with rfl | h
    · simpa using he
    · simpa using h
  · rw [if_neg he]
    have hmem : a ∈ e :: s.seenIds := by
      rcases h with rfl | h
      · exact List.mem_cons_self _ _
      · exact List.mem_cons_of_mem _ h
    split
    · simpa [writeStatusM] using hmem
    · split
      · rw [(flushLookup_parts oracle _).2]
        simpa using hmem
      · simpa using hmem

/-- Every entry of a processed stream is in the final seen set. -/
theorem foldl_seen_mem (oracle : Oracle) (entries : List Nat) (s : PEState)
    (a : Nat) (h : a ∈ entries ∨ a ∈ s.seenIds) :
    a ∈ (entries.foldl (processEntry oracle) s).seenIds := by
  induction entries generalizing s with
  | nil =>
    rcases h with h | h
    · cases h
    · simpa using h
  | cons e es ih =>
    rw [List.foldl_cons]
    apply ih
    rcases h with h | h
    · rcases List.mem_cons.mp h with rfl | h'
      · exact Or.inr (processEntry_seen_mem _ _ _ _ (Or.inl rfl))
      · exact Or.inl h'
    · exact Or.inr (processEntry_seen_mem _ _ _ _ (Or.inr h))

/-! ## Claim C6 — backoff policy -/

/-- Claim C6 counterexample: the claim's formula
`delay(attempt) = min(maxDelay, baseDelay * 2^attempt)` together with
"the first backoff delay (delay(1)) is exactly baseDelay" fails on both
backoff functions of the code: `retryDelayMs 1` is 1000 ms while the
claimed formula gives 2000 ms at attempt 1 (the code uses the exponent
`attempt - 1`), and `backoffMs 1` is 2000 ms, not the base delay. -/
theorem claimC6_counterexample :
    retryDelayMs 1 = 1000 ∧
    min MAX_RETRY_DELAY_MS (BASE_RETRY_DELAY_MS * 2 ^ 1) = 2000 ∧
    retryDelayMs 1 ≠ min MAX_RETRY_DELAY_MS (BASE_RETRY_DELAY_MS * 2 ^ 1) ∧
    backoffMs 1 = 2000 ∧
    backoffMs 1 ≠ BASE_RETRY_DELAY_MS := by
  refine ⟨by decide, by decide, by decide, by decide, by decide⟩

/-- Claim C6 (amended): both backoff policies are pure, deterministic,
capped exponentials with baseDelay 1000 ms and maxDelay 30000 ms, but the
Rotector client's `retryDelayMs` computes
`min(maxDelay, baseDelay * 2^(attempt-1))`, so its first retry
(attempt 1) waits exactly baseDelay, while the scrapers' `backoffMs`
computes `min(maxDelay, baseDelay * 2^attempt)`, so its first retry
(attempt 1) waits `2 * baseDelay`.  Both double the delay until the cap
and never exceed the cap. -/
theorem claimC6_backoff (a : Nat) (ha : 1 ≤ a) :
    retryDelayMs a = min MAX_RETRY_DELAY_MS (BASE_RETRY_DELAY_MS * 2 ^ (a - 1)) ∧
    backoffMs a = min MAX_RETRY_DELAY_MS (BASE_RETRY_DELAY_MS * 2 ^ a) ∧
    retryDelayMs 1 = BASE_RETRY_DELAY_MS ∧
    backoffMs 1 = 2 * BASE_RETRY_DELAY_MS ∧
    retryDelayMs (a + 1) = min MAX_RETRY_DELAY_MS (2 * retryDelayMs a) ∧
    backoffMs (a + 1) = min MAX_RETRY_DELAY_MS (2 * backoffMs a) ∧
    retryDelayMs a ≤ MAX_RETRY_DELAY_MS ∧
    backoffMs a ≤ MAX_RETRY_DELAY_MS := by
  have hpow : 2 ^ a = 2 * 2 ^ (a - 1) := by
    conv_lhs => rw [show a = (a - 1) + 1 by omega]
    rw [pow_succ]; ring
  refine ⟨rfl, rfl, by decide, by decide, ?_, ?_, min_le_left _ _, min_le_left _ _⟩
  · rw [retryDelayMs, retryDelayMs, Nat.add_sub_cancel, hpow,
      MAX_RETRY_DELAY_MS, BASE_RETRY_DELAY_MS]
    generalize (2 : Nat) ^ (a - 1) = p
    omega
  · rw [backoffMs, backoffMs, pow_succ, MAX_RETRY_DELAY_MS, BASE_RETRY_DELAY_MS]
    generalize (2 : Nat) ^ a = p
    omega

/-- Witness for the amended C6 at attempt 2. -/
theorem claimC6_backoff_witness :
    1 ≤ 2 ∧
    retryDelayMs 2 = min MAX_RETRY_DELAY_MS (BASE_RETRY_DELAY_MS * 2 ^ (2 - 1)) ∧
    retryDelayMs 3 = min MAX_RETRY_DELAY_MS (2 * retryDelayMs 2) :=
  ⟨by decide, (claimC6_backoff 2 (by decide)).1, (claimC6_backoff 2 (by decide)).2.2.2.2.1⟩

/-! ## Claim C10 — friends stream yields the subject first -/

/-- Claim C10: for every user id given to the friends stream, the stream
yields the subject's own id as its first element, before any identifiers
fetched from the remote friends pages, and consequently processing a
friends source always collects the subject account itself (it enters the
pipeline's seen set and is deduplicated and verified alongside its
friends). -/
theorem claimC10_subject_first (u : Nat) (pages : List (List Nat))
    (oracle : Oracle) (cache0 : StatusMap) :
    (streamFriends u pages).head? = some u ∧
    (streamFriends u pages).tail = pages.flatten ∧
    u ∈ (processEntries oracle cache0 (streamFriends u pages)).seenIds := by
  refine ⟨rfl, rfl, ?_⟩
  rw [processEntries, (flushLookup_parts oracle _).2]
  exact foldl_seen_mem _ _ _ _ (Or.inl (List.mem_cons_self _ _))

/-! ## Claim C3 — rate gate: single cooldown per halt -/

/-- The gate stays halted, with its original deadline, under any further
trips that happen before the deadline. -/
theorem gate_halted_steps (d : Nat) (rest : List (Nat × Nat))
    (h : ∀ p ∈ rest, p.1 < d) :
    List.foldl gateStep { lock := some d } rest = ({ lock := some d } : GateState) := by
  induction rest with
  | nil => rfl
  | cons p ps ih =>
    rw [List.foldl_cons]
    have hp := h p (List.mem_cons_self _ _)
    have hstep : gateStep { lock := some d } p = ({ lock := some d } : GateState) := by
      rw [gateStep, clearIfElapsed]
      simp only
      rw [if_neg (by omega)]
      rfl
    rw [hstep]
    exact ih (fun q hq => h q (List.mem_cons_of_mem _ hq))

/-- Claim C3: a trip of the rate gate while it is already halted is a
no-op that neither extends nor restarts the cooldown; for K concurrent
observers of rate-limit signals during one halt — the first at time `t0`
establishing cooldown `c0`, the others landing inside the halt window —
the gate ends with the single deadline `t0 + c0` (one cooldown period,
not K), and every one of the K observers waiting on the gate resumes
exactly at that shared deadline, so none of them issues a new request
while the gate is halted. -/
theorem claimC3_gate_single_cooldown (t0 c0 : Nat) (rest : List (Nat × Nat))
    (hwin : ∀ p ∈ rest, t0 ≤ p.1 ∧ p.1 < t0 + c0) :
    (∀ (g : GateState) (now c : Nat), g.lock.isSome → tripGate now g c = g) ∧
    List.foldl gateStep { lock := none } ((t0, c0) :: rest)
      = ({ lock := some (t0 + c0) } : GateState) ∧
    (∀ p ∈ (t0, c0) :: rest,
      awaitGate p.1 (List.foldl gateStep { lock := none } ((t0, c0) :: rest)) = t0 + c0) := by
  have hfold : List.foldl gateStep { lock := none } ((t0, c0) :: rest)
      = ({ lock := some (t0 + c0) } : GateState) := by
    rw [List.foldl_cons]
    rw [show gateStep { lock := none } (t0, c0) = ({ lock := some (t0 + c0) } : GateState)
      from rfl]
    exact gate_halted_steps _ _ (fun p hp => (hwin p hp).2)
  refine ⟨?_, hfold, ?_⟩
  · intro g now c hg
    obtain ⟨lock⟩ := g
    cases lock with
    | none => simp at hg
    | some d => rfl
  · intro p hp
    rw [hfold]
    rcases List.mem_cons.mp hp with rfl | hp'
    · rw [awaitGate, clearIfElapsed]
      simp only
      by_cases hc : t0 + c0 ≤ t0
      · rw [if_pos hc]
        simp only
        omega
      · rw [if_neg hc]
    · rw [awaitGate, clearIfElapsed]
      simp only
      rw [if_neg (by have := (hwin p hp').2; omega)]

/-- Witness for C3: three observers, the first tripping at time 100 for
12500 ms, two more during the halt; a single deadline 12600 results and
the last observer resumes at it. -/
theorem claimC3_gate_witness :
    List.foldl gateStep { lock := none } [(100, 12500), (150, 9999), (200, 1)]
      = ({ lock := some 12600 } : GateState) ∧
    awaitGate 200 (List.foldl gateStep { lock := none } [(100, 12500), (150, 9999), (200, 1)])
      = 12600 := by
  have h := claimC3_gate_single_cooldown 100 12500 [(150, 9999), (200, 1)] (by decide)
  exact ⟨h.2.1, h.2.2 (200, 1) (by decide)⟩

/-! ## Claim C4 — 429 handling in the verification client -/

/-- Claim C4: on an explicit rate-limit (429) response the client resets
its local failure counter to zero — a rate-limit response is never
counted toward the retry ceiling — computes the cooldown as the
server-provided retry hint (in seconds, falling back to the fixed
default of 10 when the hint is absent) times 1000 plus the fixed 2500 ms
safety margin, trips the rate gate with it, and retries: a script of
rate-limit responses of any length leaves the loop still retrying (never
thrown), with the counter at zero and one gate trip per response, so
rate-limit responses alone can never fail a batch. -/
theorem claimC4_rate_limit (st : ClientState) (retryAfter : Option Nat)
    (rest : List RotResponse) (hs : List (Option Nat)) :
    checkMultipleUsersRun st (RotResponse.http429 retryAfter :: rest)
      = checkMultipleUsersRun
          { st with
            consecutiveFailures := 0
            trips := st.trips ++ [cooldown429 retryAfter] } rest ∧
    cooldown429 none = 10 * 1000 + 2500 ∧
    (∀ n : Nat, 0 < n → cooldown429 (some n) = n * 1000 + 2500) ∧
    (∃ st', checkMultipleUsersRun st (hs.map RotResponse.http429)
        = ClientOutcome.looping st' ∧
      st'.consecutiveFailures = (if hs = [] then st.consecutiveFailures else 0) ∧
      st'.trips = st.trips ++ hs.map cooldown429 ∧
      st'.sleeps = st.sleeps) := by
  refine ⟨rfl, rfl, ?_, ?_⟩
  · intro n hn
    rw [cooldown429]
    simp [Nat.pos_iff_ne_zero.mp hn]
  · induction hs generalizing st with
    | nil => exact ⟨st, rfl, by simp, by simp, rfl⟩
    | cons h hs' ih =>
      obtain ⟨st', h1, h2, h3, h4⟩ :=
        ih { st with consecutiveFailures := 0, trips := st.trips ++ [cooldown429 h] }
      refine ⟨st', h1, ?_, ?_, h4⟩
      · rcases hs' with _ | _ <;> simpa using h2
      · rw [h3]
        simp

/-- Witness for C4 with the counter at 3, a hint of 7 s, and a two-long
all-429 script. -/
theorem claimC4_rate_limit_witness :
    0 < 7 ∧ cooldown429 (some 7) = 7 * 1000 + 2500 ∧
    (∃ st', checkMultipleUsersRun { consecutiveFailures := 3, sleeps := [], trips := [] }
        ([some 7, none].map RotResponse.http429) = ClientOutcome.looping st' ∧
      st'.consecutiveFailures = (if ([some 7, none] : List (Option Nat)) = [] then 3 else 0) ∧
      st'.trips = ([] : List Nat) ++ [some 7, none].map cooldown429 ∧
      st'.sleeps = ([] : List Nat)) := by
  have h := claimC4_rate_limit { consecutiveFailures := 3, sleeps := [], trips := [] }
    (some 7) [] [some 7, none]
  exact ⟨by decide, h.2.2.1 7 (by decide), h.2.2.2⟩

/-! ## Claim C8 — out-of-range flag levels -/

/-- Strict parsing rejects every flag level above 6. -/
theorem flagTypeToEnum_gt (f : Nat) (hf : 6 < f) :
    flagTypeToEnum f = Except.error ("Unknown flag type: " ++ toString f) := by
  match f, hf with
  | (n + 7), _ => rfl

/-- The string classification coerces every flag level above 6 to the
placeholder label. -/
theorem flagTypeToString_gt (f : Nat) (hf : 6 < f) :
    flagTypeToString f = "UNKNOWN" := by
  match f, hf with
  | (n + 7), _ => rfl

/-- An oracle answering every requested id with the out-of-range flag
level 7. -/
def oracleFlag7 : Oracle := fun b =>
  Except.ok (b.map fun i => (i, { id := i, flagType := 7 }))

/-- Claim C8 counterexample: a verification result carrying flag level 7
(outside 0–6) does not make the pipeline raise a classification error:
processing the single id 42 against an oracle that flags it with level 7
completes and appends a sink record for 42 labelled with the placeholder
"UNKNOWN" — `writeStatus` classifies via `flagTypeToString`, which
silently coerces, even though `flagTypeToEnum 7` would have raised. -/
theorem claimC8_counterexample :
    flagTypeToEnum 7 = Except.error "Unknown flag type: 7" ∧
    flagTypeToString 7 = "UNKNOWN" ∧
    (processEntries oracleFlag7 [] [42]).sink
      = [{ status := { id := 42, flagType := 7 }, flagLabel := "UNKNOWN" }] ∧
    (processEntries oracleFlag7 [] [42]).warns = [] := by
  refine ⟨rfl, by decide, by decide, by decide⟩

/-- Claim C8 (amended): `flagTypeToEnum` raises a classification error
for every flag level outside 0–6 and accepts every level inside it, but
the pipeline's record-writing path never consults it: `writeStatus`
classifies via `flagTypeToString`, which silently coerces every
out-of-range flag level to the placeholder label "UNKNOWN" and appends
the record without error. -/
theorem claimC8_flag_classification (f : Nat) (hf : 6 < f) :
    flagTypeToEnum f = Except.error ("Unknown flag type: " ++ toString f) ∧
    (∀ g : Nat, g ≤ 6 → ∃ v, flagTypeToEnum g = Except.ok v) ∧
    flagTypeToString f = "UNKNOWN" ∧
    (∀ (s : PEState) (st : UserStatus), st.flagType = f →
      (writeStatusM s st).sink = s.sink ++ [{ status := st, flagLabel := "UNKNOWN" }]) := by
  refine ⟨flagTypeToEnum_gt f hf, ?_, flagTypeToString_gt f hf, ?_⟩
  · intro g hg
    interval_cases g <;> exact ⟨_, rfl⟩
  · intro s st hst
    simp [writeStatusM, hst, flagTypeToString_gt f hf]

/-- Witness for the amended C8 at flag level 9. -/
theorem claimC8_flag_witness :
    6 < 9 ∧ flagTypeToString 9 = "UNKNOWN" ∧
    flagTypeToEnum 9 = Except.error ("Unknown flag type: " ++ toString 9) :=
  ⟨by decide, (claimC8_flag_classification 9 (by decide)).2.2.1,
    (claimC8_flag_classification 9 (by decide)).1⟩

/-! ## Claim C9 — `checkLotsOfUsers` never rejects -/

/-- `runBatches` is the in-order merge of the successful batches' data
into the accumulator. -/
theorem runBatches_eq_filterMap (oracle : Oracle) (bs : List (List Nat))
    (acc : StatusMap) :
    runBatches oracle bs acc
      = (bs.filterMap (fun b => (oracle b).toOption)).foldl objectAssign acc := by
  induction bs generalizing acc with
  | nil => rfl
  | cons b rest ih =>
    rw [runBatches]
    cases hb : oracle b with
    | ok d =>
      rw [List.filterMap_cons, hb]
      simp only [Except.toOption, List.foldl_cons]
      exact ih _
    | error e =>
      rw [List.filterMap_cons, hb]
      simp only [Except.toOption]
      exact ih _

/-- Claim C9: for every input list of identifiers and every behaviour of
the per-batch `checkMultipleUsers` calls, `checkLotsOfUsers` resolves —
each individual batch rejection is caught and swallowed by its `.catch` —
and the returned record is exactly the merge, in order, of the data of
the successful batches; it is the empty record when the input is empty
or every batch fails. -/
theorem claimC9_lots_never_rejects (oracle : Oracle) (ids : List Nat) :
    checkLotsOfUsers oracle ids = mergeOfSuccesses oracle ids ∧
    (ids = [] → checkLotsOfUsers oracle ids = []) ∧
    ((∀ b ∈ lotsBatches ids, ∃ m, oracle b = Except.error m) →
      checkLotsOfUsers oracle ids = []) := by
  refine ⟨runBatches_eq_filterMap oracle _ _, ?_, ?_⟩
  · intro h
    subst h
    rfl
  · intro h
    rw [checkLotsOfUsers, runBatches_eq_filterMap]
    have hnil : (lotsBatches ids).filterMap (fun b => (oracle b).toOption) = [] := by
      rw [List.filterMap_eq_nil_iff]
      intro b hb
      obtain ⟨m, hm⟩ := h b hb
      rw [hm]
      rfl
    rw [hnil]
    rfl

/-- An oracle on which every batch rejects. -/
def oracleFailAll : Oracle := fun _ => Except.error "HTTP error! status: 500"

/-- Witness for C9: all batches failing yields the empty record, as does
the empty input. -/
theorem claimC9_lots_witness :
    checkLotsOfUsers oracleFailAll [1, 2, 3] = [] ∧
    checkLotsOfUsers oracleFailAll [] = [] :=
  ⟨(claimC9_lots_never_rejects oracleFailAll [1, 2, 3]).2.2 (fun _ _ => ⟨_, rfl⟩),
   (claimC9_lots_never_rejects oracleFailAll []).2.1 rfl⟩

/-! ## Claim C2 — a cached identifier never hits the network again -/

/-- Well-formed per-batch answers give a well-formed merged lookup. -/
theorem wfMap_checkLots (oracle : Oracle)
    (hwfo : ∀ b d, oracle b = Except.ok d → wfMap d) (ids : List Nat) :
    wfMap (checkLotsOfUsers oracle ids) := by
  intro p hp
  rcases mem_runBatches oracle _ [] p hp with h | ⟨b, _, d, hd, hpd⟩
  · cases h
  · exact hwfo b d hd p hpd

/-- Persisting well-formed results keeps the run cache well-formed. -/
theorem wfMap_persist (m results : StatusMap) (hm : wfMap m) (hr : wfMap results) :
    wfMap (persistCache m results) := by
  intro p hp
  rcases mem_assignAll m results p hp with h | h
  · exact hm p h
  · exact hr p h

/-- The invariant carried for claim C2: identifier `X` is cached (in a
well-formed cache), never pending, never submitted, and has exactly one
sink record exactly when it has been seen. -/
def c2Inv (X : Nat) (s : PEState) : Prop :=
  (lookupId s.statusCache X).isSome ∧
  wfMap s.statusCache ∧
  X ∉ s.pendingLookup ∧
  X ∉ s.submitted.flatten ∧
  sinkCountId s.sink X = (if X ∈ s.seenIds then 1 else 0)

/-- A flush preserves the C2 invariant (and the seen set). -/
theorem c2Inv_flush (oracle : Oracle) (X : Nat)
    (hwfo : ∀ b d, oracle b = Except.ok d → wfMap d)
    (s : PEState) (hinv : c2Inv X s) : c2Inv X (flushLookup oracle s) := by
  obtain ⟨h1, h2, h3, h4, h5⟩ := hinv
  by_cases hp : s.pendingLookup = []
  · rw [flushLookup_of_nil _ _ hp]
    exact ⟨h1, h2, h3, h4, h5⟩
  · rw [flushLookup_eq _ _ hp]
    set R := checkLotsOfUsers oracle s.pendingLookup with hR
    have hwfR : wfMap R := wfMap_checkLots oracle hwfo _
    set s1 : PEState := { s with
      pendingLookup := ([] : List Nat),
      submitted := s.submitted ++ lotsBatches s.pendingLookup,
      statusCache := persistCache s.statusCache R,
      newlyChecked := s.newlyChecked + s.pendingLookup.length } with hs1
    have hparts := writeChunk_parts R s.pendingLookup s1
    refine ⟨?_, ?_, ?_, ?_, ?_⟩
    · rw [hparts.2.2.1]
      show (lookupId (persistCache s.statusCache R) X).isSome
      rw [show persistCache s.statusCache R = assignAll s.statusCache R from rfl]
      exact (assignAll_isSome _ _ _).mpr (Or.inr h1)
    · rw [hparts.2.2.1]
      exact wfMap_persist _ _ h2 hwfR
    · rw [hparts.2.1]
      simp
    · rw [hparts.2.2.2]
      show X ∉ (s.submitted ++ lotsBatches s.pendingLookup).flatten
      rw [List.flatten_append]
      intro hmem
      rcases List.mem_append.mp hmem with h | h
      · exact h4 h
      · rw [show lotsBatches s.pendingLookup = chunkList BATCH_SIZE s.pendingLookup
          from rfl, chunk_flatten BATCH_SIZE (by decide) _] at h
        exact h3 h
    · rw [writeChunk_sinkCount_eq, hparts.1]
      · show sinkCountId s.sink X = if X ∈ s.seenIds then 1 else 0
        exact h5
      · intro c hc st hst heq
        have hcid : st.id = c := wfMap_lookup _ hwfR _ _ hst
        rw [hcid] at heq
        exact h3 (heq ▸ hc)

/-- One driver step preserves the C2 invariant. -/
theorem c2Inv_step (oracle : Oracle) (X : Nat)
    (hwfo : ∀ b d, oracle b = Except.ok d → wfMap d)
    (s : PEState) (e : Nat) (hinv : c2Inv X s) :
    c2Inv X (processEntry oracle s e) := by
  obtain ⟨h1, h2, h3, h4, h5⟩ := hinv
  simp only [processEntry]
  by_cases he : e ∈ s.seenIds
  · rw [if_pos he]
    exact ⟨h1, h2, h3, h4, by simpa using h5⟩
  · rw [if_neg he]
    cases hc : lookupId s.statusCache e with
    | some cached =>
      have hid : cached.id = e := wfMap_lookup _ h2 _ _ hc
      refine ⟨by simpa [writeStatusM] using h1, ?_, ?_, ?_, ?_⟩
      · intro p hp
        exact h2 p (by simpa [writeStatusM] using hp)
      · simpa [writeStatusM] using h3
      · simpa [writeStatusM] using h4
      · rw [writeStatusM_sinkCount]
        show sinkCountId s.sink X + _ = if X ∈ e :: s.seenIds then 1 else 0
        by_cases hex : e = X
        · subst hex
          rw [h5, if_neg he, if_pos hid, if_pos (List.mem_cons_self _ _)]
        · rw [hid, if_neg hex, h5, Nat.add_zero]
          by_cases hX : X ∈ s.seenIds
          · rw [if_pos hX, if_pos (List.mem_cons_of_mem _ hX)]
          · rw [if_neg hX, if_neg (by
              intro hmem
              rcases List.mem_cons.mp hmem with rfl | hmem
              · exact hex rfl
              · exact hX hmem)]
    | none =>
      have hex : e ≠ X := by
        intro h
        subst h
        rw [hc] at h1
        simp at h1
      have hinv' : c2Inv X { s with
          seenIds := e :: s.seenIds,
          uniqueUsers := s.uniqueUsers + 1,
          totalCollected := s.totalCollected + 1,
          collected := s.collected ++ [e],
          pendingLookup := s.pendingLookup ++ [e] } := by
        refine ⟨h1, h2, ?_, h4, ?_⟩
        · show X ∉ s.pendingLookup ++ [e]
          intro hmem
          rcases List.mem_append.mp hmem with h | h
          · exact h3 h
          · simp at h
            exact hex h.symm
        · show sinkCountId s.sink X = if X ∈ e :: s.seenIds then 1 else 0
          rw [h5]
          by_cases hX : X ∈ s.seenIds
          · rw [if_pos hX, if_pos (List.mem_cons_of_mem _ hX)]
          · rw [if_neg hX, if_neg (by
              intro hmem
              rcases List.mem_cons.mp hmem with rfl | hmem
              · exact hex rfl
              · exact hX hmem)]
      by_cases hfull : LOOKUP_BATCH_SIZE ≤ (s.pendingLookup ++ [e]).length
      · rw [if_pos hfull]
        exact c2Inv_flush oracle X hwfo _ hinv'
      · rw [if_neg hfull]
        exact hinv'

/-- The C2 invariant holds after folding a whole stream. -/
theorem c2Inv_fold (oracle : Oracle) (X : Nat)
    (hwfo : ∀ b d, oracle b = Except.ok d → wfMap d)
    (entries : List Nat) (s : PEState) (hinv : c2Inv X s) :
    c2Inv X (entries.foldl (processEntry oracle) s) := by
  induction entries generalizing s with
  | nil => exact hinv
  | cons e es ih =>
    rw [List.foldl_cons]
    exact ih _ (c2Inv_step oracle X hwfo s e hinv)

/-- Claim C2: if identifier `X` already has a run-cache entry when a
stream is processed, then every occurrence of `X` in that stream causes
zero verification-client submissions of `X` (it never appears in any
submitted batch), and exactly one verification record for `X` is still
appended to that source's sink (at its first occurrence; later
occurrences in the same stream are deduplicated).  Since the cache is
carried across sources, this covers every later stream of the run. -/
theorem claimC2_cache_hit (oracle : Oracle) (cache0 : StatusMap) (X : Nat)
    (entries : List Nat)
    (hwfo : ∀ b d, oracle b = Except.ok d → wfMap d)
    (hwfc : wfMap cache0)
    (hX : (lookupId cache0 X).isSome)
    (hmem : X ∈ entries) :
    X ∉ (processEntries oracle cache0 entries).submitted.flatten ∧
    sinkCountId (processEntries oracle cache0 entries).sink X = 1 := by
  have hinv0 : c2Inv X (initState cache0) := by
    refine ⟨hX, hwfc, by simp [initState], by simp [initState], ?_⟩
    simp [initState, sinkCountId]
  have hfold := c2Inv_fold oracle X hwfo entries _ hinv0
  have hfin := c2Inv_flush oracle X hwfo _ hfold
  have hseen : X ∈ (entries.foldl (processEntry oracle) (initState cache0)).seenIds :=
    foldl_seen_mem oracle entries _ X (Or.inl hmem)
  obtain ⟨_, _, _, g4, g5⟩ := hfin
  refine ⟨g4, ?_⟩
  rw [processEntries] at *
  rw [g5, if_pos]
  rw [(flushLookup_parts oracle _).2]
  exact hseen

/-- An oracle answering every requested id with a well-formed SAFE
status. -/
def oracleSafe : Oracle := fun b =>
  Except.ok (b.map fun i => (i, { id := i, flagType := 0 }))

/-- Witness for C2: id 9 is pre-cached; the stream `[9, 9, 3]` submits
no batch containing 9 and writes exactly one record for 9. -/
theorem claimC2_cache_hit_witness :
    9 ∉ (processEntries oracleSafe [(9, { id := 9, flagType := 5 })] [9, 9, 3]).submitted.flatten ∧
    sinkCountId (processEntries oracleSafe [(9, { id := 9, flagType := 5 })] [9, 9, 3]).sink 9 = 1 := by
  refine claimC2_cache_hit oracleSafe [(9, { id := 9, flagType := 5 })] 9 [9, 9, 3] ?_ ?_ ?_ ?_
  · intro b d hd p hp
    rw [oracleSafe] at hd
    cases hd
    obtain ⟨i, hi, rfl⟩ := List.mem_map.mp hp
    rfl
  · intro p hp
    simp at hp
    rw [hp]
  · decide
  · decide

/-! ## Claim C7 — batch sizing for a stream of unseen identifiers -/

/-- The invariant carried for claim C7 while a stream of fresh, distinct
identifiers is folded: the submitted batches followed by the pending
buffer are exactly the processed prefix, the buffer holds at most 49
ids, every submitted batch is full (50 ids), the seen set is exactly the
prefix, and every cache key is an initial key or a submitted id. -/
def c7Inv (cache0 : StatusMap) (pre : List Nat) (s : PEState) : Prop :=
  s.submitted.flatten ++ s.pendingLookup = pre ∧
  s.pendingLookup.length ≤ 49 ∧
  (∀ b ∈ s.submitted, b.length = 50) ∧
  (∀ a : Nat, a ∈ s.seenIds ↔ a ∈ pre) ∧
  (∀ k : Nat, (lookupId s.statusCache k).isSome →
    (lookupId cache0 k).isSome ∨ k ∈ s.submitted.flatten)

/-- Effect of a flush on the submission trace when the buffer fits one
batch: the whole buffer is submitted as one batch. -/
theorem c7_flush_submitted (oracle : Oracle)
    (hkeys : ∀ b d, oracle b = Except.ok d → ∀ p ∈ d, p.1 ∈ b)
    (cache0 : StatusMap) (s : PEState)
    (hne : s.pendingLookup ≠ []) (hlen : s.pendingLookup.length ≤ 50)
    (hcache : ∀ k, (lookupId s.statusCache k).isSome →
      (lookupId cache0 k).isSome ∨ k ∈ s.submitted.flatten) :
    (flushLookup oracle s).submitted = s.submitted ++ [s.pendingLookup] ∧
    (flushLookup oracle s).pendingLookup = [] ∧
    (flushLookup oracle s).seenIds = s.seenIds ∧
    (∀ k, (lookupId (flushLookup oracle s).statusCache k).isSome →
      (lookupId cache0 k).isSome ∨ k ∈ (s.submitted ++ [s.pendingLookup]).flatten) := by
  have hsingle : lotsBatches s.pendingLookup = [s.pendingLookup] :=
    chunk_single BATCH_SIZE (by decide) _ hne hlen
  rw [flushLookup_eq _ _ hne]
  set R := checkLotsOfUsers oracle s.pendingLookup with hR
  set s1 : PEState := { s with
    pendingLookup := ([] : List Nat),
    submitted := s.submitted ++ lotsBatches s.pendingLookup,
    statusCache := persistCache s.statusCache R,
    newlyChecked := s.newlyChecked + s.pendingLookup.length } with hs1
  have hparts := writeChunk_parts R s.pendingLookup s1
  have hRkeys : ∀ k, (lookupId R k).isSome → k ∈ s.pendingLookup := by
    intro k hk
    rw [hR, checkLotsOfUsers] at hk
    rcases (runBatches_isSome oracle _ _ _).mp hk with ⟨b, hb, d, hd, hdk⟩ | habs
    · rw [hsingle] at hb
      simp at hb
      subst hb
      obtain ⟨v, hv⟩ := Option.isSome_iff_exists.mp hdk
      exact hkeys _ _ hd (k, v) (lookupId_mem _ _ _ hv)
    · simp [lookupId] at habs
  refine ⟨?_, hparts.2.1, hparts.1, ?_⟩
  · rw [hparts.2.2.2]
    show s.submitted ++ lotsBatches s.pendingLookup = _
    rw [hsingle]
  · intro k hk
    rw [hparts.2.2.1] at hk
    have hk' : (lookupId (persistCache s.statusCache R) k).isSome := hk
    rcases (assignAll_isSome _ _ _).mp hk' with hkR | hkC
    · right
      rw [List.flatten_append]
      exact List.mem_append_right _ (by simpa using hRkeys k hkR)
    · rcases hcache k hkC with h | h
      · exact Or.inl h
      · right
        rw [List.flatten_append]
        exact List.mem_append_left _ h

/-- One driver step on a fresh, not-yet-processed identifier preserves
the C7 invariant with the prefix extended by it. -/
theorem c7Inv_step (oracle : Oracle)
    (hkeys : ∀ b d, oracle b = Except.ok d → ∀ p ∈ d, p.1 ∈ b)
    (cache0 : StatusMap) (pre : List Nat) (s : PEState) (e : Nat)
    (hfresh : lookupId cache0 e = none) (hnew : e ∉ pre)
    (hinv : c7Inv cache0 pre s) :
    c7Inv cache0 (pre ++ [e]) (processEntry oracle s e) := by
  obtain ⟨j1, j2, j3, j4, j5⟩ := hinv
  have hseen : e ∉ s.seenIds := fun h => hnew ((j4 e).mp h)
  have hcnone : lookupId s.statusCache e = none := by
    cases hcl : lookupId s.statusCache e with
    | none => rfl
    | some v =>
      have hsome : (lookupId s.statusCache e).isSome := by rw [hcl]; rfl
      rcases j5 e hsome with h | h
      · rw [hfresh] at h
        simp at h
      · exact absurd (j1 ▸ List.mem_append_left _ h) hnew
  simp only [processEntry]
  rw [if_neg hseen, hcnone]
  by_cases hfull : LOOKUP_BATCH_SIZE ≤ (s.pendingLookup ++ [e]).length
  · rw [if_pos hfull]
    set s' : PEState := { s with
      seenIds := e :: s.seenIds,
      uniqueUsers := s.uniqueUsers + 1,
      totalCollected := s.totalCollected + 1,
      collected := s.collected ++ [e],
      pendingLookup := s.pendingLookup ++ [e] } with hs'
    have hne' : s'.pendingLookup ≠ [] := by simp [hs']
    have hlen' : s'.pendingLookup.length ≤ 50 := by
      show (s.pendingLookup ++ [e]).length ≤ 50
      simp only [List.length_append, List.length_cons, List.length_nil]
      omega
    have hcache' : ∀ k, (lookupId s'.statusCache k).isSome →
        (lookupId cache0 k).isSome ∨ k ∈ s'.submitted.flatten := j5
    obtain ⟨f1, f2, f3, f4⟩ :=
      c7_flush_submitted oracle hkeys cache0 s' hne' hlen' hcache'
    refine ⟨?_, ?_, ?_, ?_, ?_⟩
    · rw [f1, f2]
      show ((s.submitted ++ [s.pendingLookup ++ [e]]).flatten) ++ [] = pre ++ [e]
      rw [List.append_nil, List.flatten_append]
      simp only [List.flatten_cons, List.flatten_nil, List.append_nil]
      rw [← List.append_assoc, j1]
    · rw [f2]
      simp
    · intro b hb
      rw [f1] at hb
      rcases List.mem_append.mp hb with h | h
      · exact j3 b h
      · simp at h
        subst h
        show (s.pendingLookup ++ [e]).length = 50
        simp only [List.length_append, List.length_cons, List.length_nil] at hfull ⊢
        have : LOOKUP_BATCH_SIZE = 50 := rfl
        omega
    · intro a
      rw [f3]
      show a ∈ e :: s.seenIds ↔ _
      rw [List.mem_cons, j4 a]
      simp [List.mem_append, or_comm]
    · intro k hk
      rcases f4 k hk with h | h
      · exact Or.inl h
      · right
        rw [f1]
        exact h
  · rw [if_neg hfull]
    refine ⟨?_, ?_, j3, ?_, j5⟩
    · show s.submitted.flatten ++ (s.pendingLookup ++ [e]) = pre ++ [e]
      rw [← List.append_assoc, j1]
    · show (s.pendingLookup ++ [e]).length ≤ 49
      simp only [List.length_append, List.length_cons, List.length_nil] at hfull ⊢
      have : LOOKUP_BATCH_SIZE = 50 := rfl
      omega
    · intro a
      show a ∈ e :: s.seenIds ↔ _
      rw [List.mem_cons, j4 a]
      simp [List.mem_append, or_comm]

/-- The C7 invariant holds after folding a fresh, duplicate-free
stream. -/
theorem c7Inv_fold (oracle : Oracle)
    (hkeys : ∀ b d, oracle b = Except.ok d → ∀ p ∈ d, p.1 ∈ b)
    (cache0 : StatusMap) (rest : List Nat) :
    ∀ (pre : List Nat) (s : PEState), (pre ++ rest).Nodup →
    (∀ id ∈ rest, lookupId cache0 id = none) →
    c7Inv cache0 pre s →
    c7Inv cache0 (pre ++ rest) (rest.foldl (processEntry oracle) s) := by
  induction rest with
  | nil =>
    intro pre s _ _ hinv
    simpa using hinv
  | cons e es ih =>
    intro pre s hnd hfresh hinv
    rw [List.foldl_cons]
    have hnew : e ∉ pre := by
      intro hmem
      have hdisj := (List.nodup_append.mp hnd).2.2
      exact hdisj hmem (List.mem_cons_self _ _)
    have hstep := c7Inv_step oracle hkeys cache0 pre s e
      (hfresh e (List.mem_cons_self _ _)) hnew hinv
    have := ih (pre ++ [e]) (processEntry oracle s e)
      (by simpa using hnd)
      (fun id hid => hfresh id (List.mem_cons_of_mem _ hid))
      hstep
    simpa using this

/-- Claim C7: a stream of `N` unseen, distinct identifiers causes the
batch accumulator to submit exactly `⌈N/50⌉` batches (batch size 50) to
the verification client, whose concatenation in submission order is the
stream itself (buffer-fill order determines batch composition), each of
size 50 except the last, whose size is `N mod 50` (or 50 when 50 divides
`N`). -/
theorem claimC7_batch_sizing (oracle : Oracle) (cache0 : StatusMap)
    (entries : List Nat)
    (hkeys : ∀ b d, oracle b = Except.ok d → ∀ p ∈ d, p.1 ∈ b)
    (hnd : entries.Nodup)
    (hfresh : ∀ id ∈ entries, lookupId cache0 id = none) :
    (processEntries oracle cache0 entries).submitted.flatten = entries ∧
    (processEntries oracle cache0 entries).submitted.length
      = (entries.length + 49) / 50 ∧
    (processEntries oracle cache0 entries).submitted.map List.length
      = List.replicate (entries.length / 50) 50
        ++ (if entries.length % 50 = 0 then [] else [entries.length % 50]) := by
  have hinv0 : c7Inv cache0 [] (initState cache0) := by
    refine ⟨rfl, by simp [initState], by simp [initState], by simp [initState], ?_⟩
    intro k hk
    exact Or.inl hk
  have hfold := c7Inv_fold oracle hkeys cache0 entries [] (initState cache0)
    (by simpa using hnd) hfresh hinv0
  rw [List.nil_append] at hfold
  obtain ⟨j1, j2, j3, j4, j5⟩ := hfold
  set sf := entries.foldl (processEntry oracle) (initState cache0) with hsf
  have hmaplen : sf.submitted.map List.length
      = List.replicate sf.submitted.length 50 := by
    rw [List.eq_replicate_iff]
    refine ⟨by simp, ?_⟩
    intro b hb
    obtain ⟨c, hc, rfl⟩ := List.mem_map.mp hb
    exact j3 c hc
  have hflatlen : sf.submitted.flatten.length = 50 * sf.submitted.length := by
    rw [List.length_flatten, hmaplen]
    simp [List.sum_replicate, Nat.mul_comm]
  rw [processEntries]
  by_cases hp : sf.pendingLookup = []
  · rw [← hsf, flushLookup_of_nil _ _ hp]
    rw [hp, List.append_nil] at j1
    have hNlen : entries.length = 50 * sf.submitted.length := by
      rw [← j1]
      exact hflatlen
    refine ⟨j1, ?_, ?_⟩
    · omega
    · rw [hmaplen, hNlen]
      have hdiv : 50 * sf.submitted.length / 50 = sf.submitted.length := by omega
      have hmod : 50 * sf.submitted.length % 50 = 0 := by omega
      rw [hdiv, hmod]
      simp
  · obtain ⟨f1, f2, f3, f4⟩ := c7_flush_submitted oracle hkeys cache0 sf hp
      (by omega) j5
    rw [← hsf, f1]
    have hNlen : entries.length = 50 * sf.submitted.length + sf.pendingLookup.length := by
      rw [← j1, List.length_append, hflatlen]
    have hplen : 1 ≤ sf.pendingLookup.length := by
      rcases Nat.eq_zero_or_pos sf.pendingLookup.length with h | h
      · exact absurd (List.length_eq_zero.mp h) hp
      · exact h
    refine ⟨?_, ?_, ?_⟩
    · rw [List.flatten_append]
      simp only [List.flatten_cons, List.flatten_nil, List.append_nil]
      exact j1
    · rw [List.length_append]
      simp only [List.length_cons, List.length_nil]
      omega
    · rw [List.map_append, hmaplen]
      simp only [List.map_cons, List.map_nil]
      have hdiv : entries.length / 50 = sf.submitted.length := by omega
      have hmod : entries.length % 50 = sf.pendingLookup.length := by omega
      rw [hdiv, hmod, if_neg (by omega)]

/-- Witness for C7: three fresh ids make one batch of three. -/
theorem claimC7_batch_sizing_witness :
    (processEntries oracleSafe [] [1, 2, 3]).submitted.flatten = [1, 2, 3] ∧
    (processEntries oracleSafe [] [1, 2, 3]).submitted.length
      = (([1, 2, 3] : List Nat).length + 49) / 50 ∧
    (processEntries oracleSafe [] [1, 2, 3]).submitted.map List.length
      = List.replicate (([1, 2, 3] : List Nat).length / 50) 50
        ++ (if ([1, 2, 3] : List Nat).length % 50 = 0 then []
            else [([1, 2, 3] : List Nat).length % 50]) := by
  refine claimC7_batch_sizing oracleSafe [] [1, 2, 3] ?_ (by decide) (fun id _ => rfl)
  intro b d hd p hp
  rw [oracleSafe] at hd
  cases hd
  obtain ⟨i, hi, rfl⟩ := List.mem_map.mp hp
  exact hi

/-! ## Claim C5 — partial failure containment -/

/-- The submission trace and the cache after a flush of a nonempty
buffer. -/
theorem flushLookup_submitted_cache (oracle : Oracle) (s : PEState)
    (hne : s.pendingLookup ≠ []) :
    (flushLookup oracle s).submitted = s.submitted ++ lotsBatches s.pendingLookup ∧
    (flushLookup oracle s).statusCache
      = persistCache s.statusCache (checkLotsOfUsers oracle s.pendingLookup) := by
  rw [flushLookup_eq _ _ hne]
  exact ⟨(writeChunk_parts _ _ _).2.2.2, (writeChunk_parts _ _ _).2.2.1⟩

/-- Sink-record counts never decrease through a flush. -/
theorem flushLookup_sinkCount_mono (oracle : Oracle) (s : PEState) (x : Nat) :
    sinkCountId s.sink x ≤ sinkCountId (flushLookup oracle s).sink x := by
  by_cases hp : s.pendingLookup = []
  · rw [flushLookup_of_nil _ _ hp]
  · rw [flushLookup_eq _ _ hp]
    have h := writeChunk_sinkCount_mono (checkLotsOfUsers oracle s.pendingLookup)
      s.pendingLookup
      { s with
        pendingLookup := ([] : List Nat),
        submitted := s.submitted ++ lotsBatches s.pendingLookup,
        statusCache := persistCache s.statusCache (checkLotsOfUsers oracle s.pendingLookup),
        newlyChecked := s.newlyChecked + s.pendingLookup.length } x
    exact h

/-- Warnings survive a flush. -/
theorem flushLookup_warns_mono (oracle : Oracle) (s : PEState) (w : Nat)
    (h : w ∈ s.warns) : w ∈ (flushLookup oracle s).warns := by
  by_cases hp : s.pendingLookup = []
  · rw [flushLookup_of_nil _ _ hp]
    exact h
  · rw [flushLookup_eq _ _ hp]
    have h' := writeChunk_warns_mono (checkLotsOfUsers oracle s.pendingLookup)
      s.pendingLookup
      { s with
        pendingLookup := ([] : List Nat),
        submitted := s.submitted ++ lotsBatches s.pendingLookup,
        statusCache := persistCache s.statusCache (checkLotsOfUsers oracle s.pendingLookup),
        newlyChecked := s.newlyChecked + s.pendingLookup.length } w h
    exact h'

/-- Submitted batches survive a flush. -/
theorem flushLookup_submitted_mono (oracle : Oracle) (s : PEState) (b : List Nat)
    (h : b ∈ s.submitted) : b ∈ (flushLookup oracle s).submitted := by
  by_cases hp : s.pendingLookup = []
  · rw [flushLookup_of_nil _ _ hp]
    exact h
  · rw [(flushLookup_submitted_cache oracle s hp).1]
    exact List.mem_append_left _ h

/-- Cache keys survive a flush. -/
theorem flushLookup_cache_mono (oracle : Oracle) (s : PEState) (k : Nat)
    (h : (lookupId s.statusCache k).isSome) :
    (lookupId (flushLookup oracle s).statusCache k).isSome := by
  by_cases hp : s.pendingLookup = []
  · rw [flushLookup_of_nil _ _ hp]
    exact h
  · rw [(flushLookup_submitted_cache oracle s hp).2]
    exact (assignAll_isSome _ _ _).mpr (Or.inr h)

/-- The invariant carried for the failed identifier `X` of claim C5:
under an oracle that rejects every batch containing `X`, identifier `X`
is never cached, never recorded in the sink, and once seen is either
still buffered or already warned about. -/
def c5XInv (X : Nat) (s : PEState) : Prop :=
  lookupId s.statusCache X = none ∧
  wfMap s.statusCache ∧
  sinkCountId s.sink X = 0 ∧
  (X ∈ s.seenIds → X ∈ s.pendingLookup ∨ X ∈ s.warns)

/-- The invariant carried for a bystander identifier `Y` of claim C5:
once seen, `Y` is still buffered, or cached with at least one sink
record, or it shared a submitted batch with the failed identifier. -/
def c5YInv (X Y : Nat) (s : PEState) : Prop :=
  Y ∈ s.seenIds → Y ∈ s.pendingLookup ∨
    ((lookupId s.statusCache Y).isSome ∧ 1 ≤ sinkCountId s.sink Y) ∨
    (∃ b ∈ s.submitted, X ∈ b ∧ Y ∈ b)

/-- The merged lookup of a flush has no key `X` when every batch
containing `X` rejects and successful data is keyed by its own batch. -/
theorem c5_R_none (oracle : Oracle) (X : Nat) (msg : String)
    (hfail : ∀ b, X ∈ b → oracle b = Except.error msg)
    (hkeys : ∀ b d, oracle b = Except.ok d → ∀ p ∈ d, p.1 ∈ b)
    (chunk : List Nat) :
    lookupId (checkLotsOfUsers oracle chunk) X = none := by
  cases hR : lookupId (checkLotsOfUsers oracle chunk) X with
  | none => rfl
  | some v =>
    have hsome : (lookupId (checkLotsOfUsers oracle chunk) X).isSome := by
      rw [hR]; rfl
    rw [checkLotsOfUsers] at hsome
    rcases (runBatches_isSome oracle _ _ _).mp hsome with ⟨b, hb, d, hd, hdk⟩ | habs
    · obtain ⟨w, hw⟩ := Option.isSome_iff_exists.mp hdk
      have hmem : (X, w) ∈ d := lookupId_mem _ _ _ hw
      have hXb : X ∈ b := hkeys b d hd (X, w) hmem
      rw [hfail b hXb] at hd
      cases hd
    · simp [lookupId] at habs

/-- A flush preserves the failed-identifier invariant. -/
theorem c5X_flush (oracle : Oracle) (X : Nat) (msg : String)
    (hfail : ∀ b, X ∈ b → oracle b = Except.error msg)
    (hkeys : ∀ b d, oracle b = Except.ok d → ∀ p ∈ d, p.1 ∈ b)
    (hwfo : ∀ b d, oracle b = Except.ok d → wfMap d)
    (s : PEState) (hx : c5XInv X s) : c5XInv X (flushLookup oracle s) := by
  obtain ⟨h1, h2, h3, h4⟩ := hx
  by_cases hp : s.pendingLookup = []
  · rw [flushLookup_of_nil _ _ hp]
    exact ⟨h1, h2, h3, h4⟩
  · have hRX : lookupId (checkLotsOfUsers oracle s.pendingLookup) X = none :=
      c5_R_none oracle X msg hfail hkeys _
    have hwfR : wfMap (checkLotsOfUsers oracle s.pendingLookup) :=
      wfMap_checkLots oracle hwfo _
    obtain ⟨hsub, hcache⟩ := flushLookup_submitted_cache oracle s hp
    refine ⟨?_, ?_, ?_, ?_⟩
    · rw [hcache,
        show persistCache s.statusCache (checkLotsOfUsers oracle s.pendingLookup)
          = assignAll s.statusCache (checkLotsOfUsers oracle s.pendingLookup) from rfl,
        lookupId_assignAll_of_none _ _ _ hRX]
      exact h1
    · rw [hcache]
      exact wfMap_persist _ _ h2 hwfR
    · rw [flushLookup_eq _ _ hp, writeChunk_sinkCount_eq]
      · simpa using h3
      · intro c hc st hst heq
        have hcid : st.id = c := wfMap_lookup _ hwfR _ _ hst
        rw [hcid] at heq
        subst heq
        rw [hRX] at hst
        cases hst
    · intro hseen
      rw [(flushLookup_parts oracle s).2] at hseen
      right
      rcases h4 hseen with hpend | hwarn
      · rw [flushLookup_eq _ _ hp]
        exact writeChunk_warns_mem _ _ _ _ hpend hRX
      · exact flushLookup_warns_mono oracle s X hwarn

/-- A flush preserves the bystander invariant. -/
theorem c5Y_flush (oracle : Oracle) (X Y : Nat)
    (hok : ∀ b, X ∉ b → ∃ d, oracle b = Except.ok d ∧ (∀ id ∈ b, (lookupId d id).isSome))
    (hwfo : ∀ b d, oracle b = Except.ok d → wfMap d)
    (s : PEState) (hy : c5YInv X Y s) : c5YInv X Y (flushLookup oracle s) := by
  intro hseen
  rw [(flushLookup_parts oracle s).2] at hseen
  by_cases hp : s.pendingLookup = []
  · rw [flushLookup_of_nil _ _ hp]
    exact hy hseen
  · rcases hy hseen with hpend | hgood | hesc
    · have hYflat : Y ∈ (lotsBatches s.pendingLookup).flatten := by
        rw [show lotsBatches s.pendingLookup
          = chunkList BATCH_SIZE s.pendingLookup from rfl,
          chunk_flatten BATCH_SIZE (by decide)]
        exact hpend
      obtain ⟨b, hb, hYb⟩ := List.mem_flatten.mp hYflat
      by_cases hXb : X ∈ b
      · right; right
        refine ⟨b, ?_, hXb, hYb⟩
        rw [(flushLookup_submitted_cache oracle s hp).1]
        exact List.mem_append_right _ hb
      · obtain ⟨d, hd, hcov⟩ := hok b hXb
        have hRY : (lookupId (checkLotsOfUsers oracle s.pendingLookup) Y).isSome := by
          rw [checkLotsOfUsers]
          exact (runBatches_isSome oracle _ _ _).mpr (Or.inl ⟨b, hb, d, hd, hcov Y hYb⟩)
        right; left
        constructor
        · rw [(flushLookup_submitted_cache oracle s hp).2]
          exact (assignAll_isSome _ _ _).mpr (Or.inl hRY)
        · rw [flushLookup_eq _ _ hp]
          exact writeChunk_sinkCount_ge _ _ _ _ (wfMap_checkLots oracle hwfo _) hpend hRY
    · right; left
      exact ⟨flushLookup_cache_mono oracle s Y hgood.1,
        le_trans hgood.2 (flushLookup_sinkCount_mono oracle s Y)⟩
    · right; right
      obtain ⟨b, hb, hXb, hYb⟩ := hesc
      exact ⟨b, flushLookup_submitted_mono oracle s b hb, hXb, hYb⟩

/-- One driver step preserves both C5 invariants. -/
theorem c5Inv_step (oracle : Oracle) (X Y : Nat) (msg : String)
    (hfail : ∀ b, X ∈ b → oracle b = Except.error msg)
    (hok : ∀ b, X ∉ b → ∃ d, oracle b = Except.ok d ∧ (∀ id ∈ b, (lookupId d id).isSome))
    (hkeys : ∀ b d, oracle b = Except.ok d → ∀ p ∈ d, p.1 ∈ b)
    (hwfo : ∀ b d, oracle b = Except.ok d → wfMap d)
    (s : PEState) (e : Nat) (hx : c5XInv X s) (hy : c5YInv X Y s) :
    c5XInv X (processEntry oracle s e) ∧ c5YInv X Y (processEntry oracle s e) := by
  obtain ⟨h1, h2, h3, h4⟩ := hx
  simp only [processEntry]
  by_cases he : e ∈ s.seenIds
  · rw [if_pos he]
    exact ⟨⟨h1, h2, h3, h4⟩, hy⟩
  · rw [if_neg he]
    cases hc : lookupId s.statusCache e with
    | some cached =>
      have hcid : cached.id = e := wfMap_lookup _ h2 _ _ hc
      have heX : e ≠ X := by
        intro h
        subst h
        rw [h1] at hc
        cases hc
      constructor
      · refine ⟨by simpa [writeStatusM] using h1, ?_, ?_, ?_⟩
        · intro p hp
          exact h2 p (by simpa [writeStatusM] using hp)
        · rw [writeStatusM_sinkCount, if_neg (by rw [hcid]; exact heX)]
          simpa using h3
        · intro hseen
          have hmem : X ∈ e :: s.seenIds := by simpa [writeStatusM] using hseen
          rcases List.mem_cons.mp hmem with heq | hX
          · exact absurd heq.symm heX
          · rcases h4 hX with hpd | hw
            · left
              simpa [writeStatusM] using hpd
            · right
              simpa [writeStatusM] using hw
      · intro hseen
        have hyseen : Y ∈ e :: s.seenIds := by simpa [writeStatusM] using hseen
        rcases List.mem_cons.mp hyseen with heq | hY
        · subst heq
          right; left
          constructor
          · show (lookupId s.statusCache Y).isSome
            rw [hc]
            rfl
          · rw [writeStatusM_sinkCount, if_pos hcid]
            omega
        · rcases hy hY with hpd | hgood | hesc
          · left
            simpa [writeStatusM] using hpd
          · right; left
            refine ⟨by simpa [writeStatusM] using hgood.1, ?_⟩
            rw [writeStatusM_sinkCount]
            have hle := hgood.2
            show 1 ≤ sinkCountId s.sink Y + _
            omega
          · right; right
            obtain ⟨b, hb, hXb, hYb⟩ := hesc
            exact ⟨b, by simpa [writeStatusM] using hb, hXb, hYb⟩
    | none =>
      have hx' : c5XInv X { s with
          seenIds := e :: s.seenIds,
          uniqueUsers := s.uniqueUsers + 1,
          totalCollected := s.totalCollected + 1,
          collected := s.collected ++ [e],
          pendingLookup := s.pendingLookup ++ [e] } := by
        refine ⟨h1, h2, h3, ?_⟩
        intro hseen
        have hmem : X ∈ e :: s.seenIds := hseen
        rcases List.mem_cons.mp hmem with heq | hX
        · left
          show X ∈ s.pendingLookup ++ [e]
          rw [heq]
          exact List.mem_append_right _ (List.mem_cons_self _ _)
        · rcases h4 hX with hpd | hw
          · left
            exact List.mem_append_left _ hpd
          · right
            exact hw
      have hy' : c5YInv X Y { s with
          seenIds := e :: s.seenIds,
          uniqueUsers := s.uniqueUsers + 1,
          totalCollected := s.totalCollected + 1,
          collected := s.collected ++ [e],
          pendingLookup := s.pendingLookup ++ [e] } := by
        intro hseen
        have hmem : Y ∈ e :: s.seenIds := hseen
        rcases List.mem_cons.mp hmem with heq | hY
        · left
          show Y ∈ s.pendingLookup ++ [e]
          rw [heq]
          exact List.mem_append_right _ (List.mem_cons_self _ _)
        · rcases hy hY with hpd | hgood | hesc
          · left
            exact List.mem_append_left _ hpd
          · right; left
            exact hgood
          · right; right
            exact hesc
      by_cases hfull : LOOKUP_BATCH_SIZE ≤ (s.pendingLookup ++ [e]).length
      · rw [if_pos hfull]
        exact ⟨c5X_flush oracle X msg hfail hkeys hwfo _ hx',
          c5Y_flush oracle X Y hok hwfo _ hy'⟩
      · rw [if_neg hfull]
        exact ⟨hx', hy'⟩

/-- Both C5 invariants hold after folding a whole stream. -/
theorem c5Inv_fold (oracle : Oracle) (X Y : Nat) (msg : String)
    (hfail : ∀ b, X ∈ b → oracle b = Except.error msg)
    (hok : ∀ b, X ∉ b → ∃ d, oracle b = Except.ok d ∧ (∀ id ∈ b, (lookupId d id).isSome))
    (hkeys : ∀ b d, oracle b = Except.ok d → ∀ p ∈ d, p.1 ∈ b)
    (hwfo : ∀ b d, oracle b = Except.ok d → wfMap d)
    (entries : List Nat) (s : PEState) (hx : c5XInv X s) (hy : c5YInv X Y s) :
    c5XInv X (entries.foldl (processEntry oracle) s) ∧
    c5YInv X Y (entries.foldl (processEntry oracle) s) := by
  induction entries generalizing s with
  | nil => exact ⟨hx, hy⟩
  | cons e es ih =>
    rw [List.foldl_cons]
    obtain ⟨hx', hy'⟩ := c5Inv_step oracle X Y msg hfail hok hkeys hwfo s e hx hy
    exact ih _ hx' hy'

/-- Claim C5: in a run over one stream starting with an empty cache,
under an oracle that rejects every batch containing identifier `X` (as
when its retries exceed the ceiling or it hits a logical service
failure) and resolves every other batch with well-formed, complete data,
`X` ends the run absent from the run cache and absent from the sink,
with a warning logged for it; the per-batch error is not propagated —
the run completes normally — and every other identifier of the stream is
cached and recorded normally unless it shared a submitted batch with
`X`. -/
theorem claimC5_partial_failure (oracle : Oracle) (entries : List Nat)
    (X : Nat) (msg : String)
    (hfail : ∀ b, X ∈ b → oracle b = Except.error msg)
    (hok : ∀ b, X ∉ b → ∃ d, oracle b = Except.ok d ∧ wfMap d ∧
      (∀ p ∈ d, p.1 ∈ b) ∧ (∀ id ∈ b, (lookupId d id).isSome)) :
    lookupId (processEntries oracle [] entries).statusCache X = none ∧
    sinkCountId (processEntries oracle [] entries).sink X = 0 ∧
    (X ∈ entries → X ∈ (processEntries oracle [] entries).warns) ∧
    (∀ Y, Y ∈ entries →
      ((lookupId (processEntries oracle [] entries).statusCache Y).isSome ∧
        1 ≤ sinkCountId (processEntries oracle [] entries).sink Y) ∨
      (∃ b ∈ (processEntries oracle [] entries).submitted, X ∈ b ∧ Y ∈ b)) := by
  have hwfo : ∀ b d, oracle b = Except.ok d → wfMap d := by
    intro b d hd
    by_cases hXb : X ∈ b
    · rw [hfail b hXb] at hd
      cases hd
    · obtain ⟨d', hd', hwf, _, _⟩ := hok b hXb
      rw [hd'] at hd
      cases hd
      exact hwf
  have hkeys : ∀ b d, oracle b = Except.ok d → ∀ p ∈ d, p.1 ∈ b := by
    intro b d hd
    by_cases hXb : X ∈ b
    · rw [hfail b hXb] at hd
      cases hd
    · obtain ⟨d', hd', _, hk, _⟩ := hok b hXb
      rw [hd'] at hd
      cases hd
      exact hk
  have hok' : ∀ b, X ∉ b →
      ∃ d, oracle b = Except.ok d ∧ (∀ id ∈ b, (lookupId d id).isSome) := by
    intro b hb
    obtain ⟨d, hd, _, _, hcov⟩ := hok b hb
    exact ⟨d, hd, hcov⟩
  have hx0 : c5XInv X (initState []) := by
    refine ⟨rfl, ?_, rfl, ?_⟩
    · intro p hp
      cases hp
    · intro h
      cases h
  have hseenflush := (flushLookup_parts oracle
    (entries.foldl (processEntry oracle) (initState []))).2
  have hXfin : c5XInv X (processEntries oracle [] entries) := by
    rw [processEntries]
    exact c5X_flush oracle X msg hfail hkeys hwfo _
      (c5Inv_fold oracle X X msg hfail hok' hkeys hwfo entries _ hx0
        (fun h => by cases h)).1
  obtain ⟨g1, g2, g3, g4⟩ := hXfin
  refine ⟨g1, g3, ?_, ?_⟩
  · intro hmem
    have hseen : X ∈ (processEntries oracle [] entries).seenIds := by
      rw [processEntries, hseenflush]
      exact foldl_seen_mem oracle entries _ X (Or.inl hmem)
    rcases g4 hseen with hpd | hw
    · rw [processEntries, (flushLookup_parts oracle _).1] at hpd
      cases hpd
    · exact hw
  · intro Y hY
    have hy0 : c5YInv X Y (initState []) := by
      intro h
      cases h
    have hYfin : c5YInv X Y (processEntries oracle [] entries) := by
      rw [processEntries]
      exact c5Y_flush oracle X Y hok' hwfo _
        (c5Inv_fold oracle X Y msg hfail hok' hkeys hwfo entries _ hx0 hy0).2
    have hseen : Y ∈ (processEntries oracle [] entries).seenIds := by
      rw [processEntries, hseenflush]
      exact foldl_seen_mem oracle entries _ Y (Or.inl hY)
    rcases hYfin hseen with hpd | hgood | hesc
    · rw [processEntries, (flushLookup_parts oracle _).1] at hpd
      cases hpd
    · exact Or.inl hgood
    · exact Or.inr hesc

/-- The stream used to witness C5: the failed id 5 lands in the first
(full) batch of 50, the bystander 7 in the second batch. -/
def entriesC5 : List Nat := 5 :: ((List.range 49).map (fun i => i + 100)) ++ [7]

/-- The oracle used to witness C5: every batch containing 5 rejects,
every other batch resolves completely. -/
def oracleC5 : Oracle := fun b =>
  if 5 ∈ b then Except.error "HTTP error! status: 500"
  else Except.ok (b.map fun i => (i, { id := i, flagType := 0 }))

/-- Every requested id resolves in the self-keyed result map. -/
theorem lookupId_map_self (f : Nat → UserStatus) (b : List Nat) (id : Nat)
    (h : id ∈ b) : (lookupId (b.map fun i => (i, f i)) id).isSome := by
  induction b with
  | nil => cases h
  | cons x xs ih =>
    rw [List.map_cons, lookupId]
    by_cases hx : x = id
    · rw [if_pos hx]
      rfl
    · rw [if_neg hx]
      refine ih ?_
      rcases List.mem_cons.mp h with heq | h'
      · exact absurd heq.symm hx
      · exact h'

/-- Witness for C5: id 5's batch fails, 5 is unrecorded but warned
about, while id 7 (in the other batch) is cached and recorded. -/
theorem claimC5_partial_failure_witness :
    lookupId (processEntries oracleC5 [] entriesC5).statusCache 5 = none ∧
    sinkCountId (processEntries oracleC5 [] entriesC5).sink 5 = 0 ∧
    5 ∈ (processEntries oracleC5 [] entriesC5).warns ∧
    (((lookupId (processEntries oracleC5 [] entriesC5).statusCache 7).isSome ∧
      1 ≤ sinkCountId (processEntries oracleC5 [] entriesC5).sink 7) ∨
     (∃ b ∈ (processEntries oracleC5 [] entriesC5).submitted, 5 ∈ b ∧ 7 ∈ b)) := by
  have h := claimC5_partial_failure oracleC5 entriesC5 5 "HTTP error! status: 500"
    (fun b hb => by simp [oracleC5, hb])
    (fun b hb => by
      refine ⟨b.map fun i => (i, { id := i, flagType := 0 }), by simp [oracleC5, hb], ?_, ?_, ?_⟩
      · intro p hp
        obtain ⟨i, hi, rfl⟩ := List.mem_map.mp hp
        rfl
      · intro p hp
        obtain ⟨i, hi, rfl⟩ := List.mem_map.mp hp
        exact hi
      · intro id hid
        exact lookupId_map_self _ b id hid)
  exact ⟨h.1, h.2.1, h.2.2.1 (by decide), h.2.2.2 7 (by decide)⟩

/-! ## Claim C1 — at most one submission per identifier per run -/

/-- A complete oracle: every batch resolves with a result for each of
its member identifiers. -/
def oracleComplete (oracle : Oracle) : Prop :=
  ∀ b : List Nat, ∃ d, oracle b = Except.ok d ∧ ∀ id ∈ b, (lookupId d id).isSome

/-- The per-source invariant carried for claim C1: the buffer is
duplicate-free, of seen, uncached, unsubmitted ids; the submitted ids
are duplicate-free, seen, absent from the initial cache; the cache only
grows and (with a complete oracle) contains every submitted id. -/
def c1Inv (cache0 : StatusMap) (s : PEState) : Prop :=
  s.pendingLookup.Nodup ∧
  (∀ id ∈ s.pendingLookup, id ∈ s.seenIds) ∧
  (∀ id ∈ s.pendingLookup, lookupId s.statusCache id = none) ∧
  (∀ id ∈ s.pendingLookup, id ∉ s.submitted.flatten) ∧
  s.submitted.flatten.Nodup ∧
  (∀ id ∈ s.submitted.flatten, id ∈ s.seenIds) ∧
  (∀ id ∈ s.submitted.flatten, lookupId cache0 id = none) ∧
  (∀ k, (lookupId cache0 k).isSome → (lookupId s.statusCache k).isSome) ∧
  (∀ id ∈ s.submitted.flatten, (lookupId s.statusCache id).isSome)

/-- A flush preserves the C1 invariant when the oracle is complete. -/
theorem c1Inv_flush (oracle : Oracle) (hc : oracleComplete oracle)
    (cache0 : StatusMap) (s : PEState) (hinv : c1Inv cache0 s) :
    c1Inv cache0 (flushLookup oracle s) := by
  by_cases hp : s.pendingLookup = []
  · rw [flushLookup_of_nil _ _ hp]
    exact hinv
  · obtain ⟨i1, i2, i3, i4, i5, i6, i7, i8, i9⟩ := hinv
    obtain ⟨hsub, hcache⟩ := flushLookup_submitted_cache oracle s hp
    have hpend0 : (flushLookup oracle s).pendingLookup = [] :=
      (flushLookup_parts oracle s).1
    have hseen : (flushLookup oracle s).seenIds = s.seenIds :=
      (flushLookup_parts oracle s).2
    have hflat : (flushLookup oracle s).submitted.flatten
        = s.submitted.flatten ++ s.pendingLookup := by
      rw [hsub, List.flatten_append,
        show lotsBatches s.pendingLookup = chunkList BATCH_SIZE s.pendingLookup from rfl,
        chunk_flatten BATCH_SIZE (by decide)]
    have hRsome : ∀ id ∈ s.pendingLookup,
        (lookupId (checkLotsOfUsers oracle s.pendingLookup) id).isSome := by
      intro id hid
      have hidflat : id ∈ (lotsBatches s.pendingLookup).flatten := by
        rw [show lotsBatches s.pendingLookup = chunkList BATCH_SIZE s.pendingLookup from rfl,
          chunk_flatten BATCH_SIZE (by decide)]
        exact hid
      obtain ⟨b, hb, hidb⟩ := List.mem_flatten.mp hidflat
      obtain ⟨d, hd, hcov⟩ := hc b
      rw [checkLotsOfUsers]
      exact (runBatches_isSome oracle _ _ _).mpr (Or.inl ⟨b, hb, d, hd, hcov id hidb⟩)
    refine ⟨by rw [hpend0]; exact List.nodup_nil, ?_, ?_, ?_, ?_, ?_, ?_, ?_, ?_⟩
    · intro id hid
      rw [hpend0] at hid
      cases hid
    · intro id hid
      rw [hpend0] at hid
      cases hid
    · intro id hid
      rw [hpend0] at hid
      cases hid
    · rw [hflat, List.nodup_append]
      exact ⟨i5, i1, fun a ha hb => i4 a hb ha⟩
    · intro id hid
      rw [hflat] at hid
      rw [hseen]
      rcases List.mem_append.mp hid with h | h
      · exact i6 id h
      · exact i2 id h
    · intro id hid
      rw [hflat] at hid
      rcases List.mem_append.mp hid with h | h
      · exact i7 id h
      · cases hcl : lookupId cache0 id with
        | none => rfl
        | some v =>
          have hsome : (lookupId s.statusCache id).isSome :=
            i8 id (by rw [hcl]; rfl)
          rw [i3 id h] at hsome
          simp at hsome
    · intro k hk
      exact flushLookup_cache_mono oracle s k (i8 k hk)
    · intro id hid
      rw [hflat] at hid
      rcases List.mem_append.mp hid with h | h
      · exact flushLookup_cache_mono oracle s id (i9 id h)
      · rw [hcache]
        exact (assignAll_isSome _ _ _).mpr (Or.inl (hRsome id h))

/-- One driver step preserves the C1 invariant. -/
theorem c1Inv_step (oracle : Oracle) (hc : oracleComplete oracle)
    (cache0 : StatusMap) (s : PEState) (e : Nat) (hinv : c1Inv cache0 s) :
    c1Inv cache0 (processEntry oracle s e) := by
  obtain ⟨i1, i2, i3, i4, i5, i6, i7, i8, i9⟩ := hinv
  simp only [processEntry]
  by_cases he : e ∈ s.seenIds
  · rw [if_pos he]
    exact ⟨i1, i2, i3, i4, i5, i6, i7, i8, i9⟩
  · rw [if_neg he]
    cases hcl : lookupId s.statusCache e with
    | some cached =>
      refine ⟨i1, ?_, i3, i4, i5, ?_, i7, i8, i9⟩
      · intro id hid
        exact List.mem_cons_of_mem _ (i2 id hid)
      · intro id hid
        exact List.mem_cons_of_mem _ (i6 id hid)
    | none =>
      have hinv' : c1Inv cache0 { s with
          seenIds := e :: s.seenIds,
          uniqueUsers := s.uniqueUsers + 1,
          totalCollected := s.totalCollected + 1,
          collected := s.collected ++ [e],
          pendingLookup := s.pendingLookup ++ [e] } := by
        refine ⟨?_, ?_, ?_, ?_, i5, ?_, i7, i8, i9⟩
        · show (s.pendingLookup ++ [e]).Nodup
          rw [List.nodup_append]
          refine ⟨i1, List.nodup_singleton e, ?_⟩
          intro a ha hae
          simp at hae
          subst hae
          exact he (i2 a ha)
        · intro id hid
          show id ∈ e :: s.seenIds
          rcases List.mem_append.mp hid with h | h
          · exact List.mem_cons_of_mem _ (i2 id h)
          · simp at h
            subst h
            exact List.mem_cons_self _ _
        · intro id hid
          rcases List.mem_append.mp hid with h | h
          · exact i3 id h
          · simp at h
            subst h
            exact hcl
        · intro id hid
          rcases List.mem_append.mp hid with h | h
          · exact i4 id h
          · simp at h
            subst h
            intro hmem
            exact he (i6 id hmem)
        · intro id hid
          exact List.mem_cons_of_mem _ (i6 id hid)
      by_cases hfull : LOOKUP_BATCH_SIZE ≤ (s.pendingLookup ++ [e]).length
      · rw [if_pos hfull]
        exact c1Inv_flush oracle hc cache0 _ hinv'
      · rw [if_neg hfull]
        exact hinv'

/-- One processed source submits each identifier at most once, only
identifiers absent from the cache it started with, and (complete
oracle) leaves every submitted identifier cached; the cache only
grows. -/
theorem c1_source (oracle : Oracle) (hc : oracleComplete oracle)
    (cache0 : StatusMap) (entries : List Nat) :
    (processEntries oracle cache0 entries).submitted.flatten.Nodup ∧
    (∀ id ∈ (processEntries oracle cache0 entries).submitted.flatten,
      lookupId cache0 id = none) ∧
    (∀ id ∈ (processEntries oracle cache0 entries).submitted.flatten,
      (lookupId (processEntries oracle cache0 entries).statusCache id).isSome) ∧
    (∀ k, (lookupId cache0 k).isSome →
      (lookupId (processEntries oracle cache0 entries).statusCache k).isSome) := by
  have hinv0 : c1Inv cache0 (initState cache0) := by
    refine ⟨List.nodup_nil, ?_, ?_, ?_, List.nodup_nil, ?_, ?_, ?_, ?_⟩ <;>
      first
        | (intro id hid; cases hid)
        | (intro k hk; exact hk)
  have hfoldInv : ∀ (l : List Nat) (s : PEState), c1Inv cache0 s →
      c1Inv cache0 (l.foldl (processEntry oracle) s) := by
    intro l
    induction l with
    | nil =>
      intro s h
      exact h
    | cons e es ih =>
      intro s h
      rw [List.foldl_cons]
      exact ih _ (c1Inv_step oracle hc cache0 s e h)
  have hfin : c1Inv cache0 (processEntries oracle cache0 entries) := by
    rw [processEntries]
    exact c1Inv_flush oracle hc cache0 _ (hfoldInv entries _ hinv0)
  obtain ⟨_, _, _, _, i5, _, i7, i8, i9⟩ := hfin
  exact ⟨i5, i7, i9, i8⟩

/-- Claim C1 counterexample: the code does not enforce at-most-one
submission per run unconditionally.  With a verifier that answers every
batch successfully but with no data (ids not in its database are simply
absent from the response), the run over two sources `[5]` and `[5]`
submits identifier 5 twice: the first lookup leaves no run-cache entry
(`persistCache` only stores returned results), so the second source
misses the cache and submits 5 again. -/
theorem claimC1_counterexample :
    ¬ ((runSubmitted (runSources (fun _ => Except.ok []) [[5], [5]])).flatten.count 5 ≤ 1) := by
  decide

/-- Claim C1 (amended): provided every batch lookup succeeds and returns
a result for each of its member identifiers (the run-cache entry is what
blocks resubmission), every identifier is submitted to the verification
client at most once per run, across all sources and all repetitions
within and across streams. -/
theorem claimC1_dedup (oracle : Oracle) (srcs : List (List Nat))
    (hc : oracleComplete oracle) :
    ∀ id : Nat, (runSubmitted (runSources oracle srcs)).flatten.count id ≤ 1 := by
  suffices h : (runSubmitted (runSources oracle srcs)).flatten.Nodup ∧
      (∀ id ∈ (runSubmitted (runSources oracle srcs)).flatten,
        (lookupId (runSources oracle srcs).statusCache id).isSome) by
    exact List.nodup_iff_count_le_one.mp h.1
  rw [runSources]
  have hgen : ∀ (l : List (List Nat)) (r : RunState),
      (runSubmitted r).flatten.Nodup →
      (∀ id ∈ (runSubmitted r).flatten, (lookupId r.statusCache id).isSome) →
      (runSubmitted (l.foldl (fun r src =>
          let s := processEntries oracle r.statusCache src
          { statusCache := s.statusCache, sources := r.sources ++ [s] }) r)).flatten.Nodup ∧
      (∀ id ∈ (runSubmitted (l.foldl (fun r src =>
          let s := processEntries oracle r.statusCache src
          { statusCache := s.statusCache, sources := r.sources ++ [s] }) r)).flatten,
        (lookupId (l.foldl (fun r src =>
          let s := processEntries oracle r.statusCache src
          { statusCache := s.statusCache, sources := r.sources ++ [s] }) r).statusCache id).isSome) := by
    intro l
    induction l with
    | nil =>
      intro r h1 h2
      exact ⟨h1, h2⟩
    | cons src rest ih =>
      intro r h1 h2
      rw [List.foldl_cons]
      obtain ⟨s1, s2, s3, s4⟩ := c1_source oracle hc r.statusCache src
      set s := processEntries oracle r.statusCache src with hs
      have hflat :
          (runSubmitted ({ statusCache := s.statusCache, sources := r.sources ++ [s] } : RunState)).flatten
          = (runSubmitted r).flatten ++ s.submitted.flatten := by
        rw [runSubmitted, runSubmitted]
        show ((r.sources ++ [s]).map PEState.submitted).flatten.flatten = _
        rw [List.map_append, List.flatten_append, List.flatten_append]
        simp
      refine ih _ ?_ ?_
      · rw [hflat, List.nodup_append]
        refine ⟨h1, s1, ?_⟩
        intro a ha hb
        have hcached : (lookupId r.statusCache a).isSome := h2 a ha
        rw [s2 a hb] at hcached
        simp at hcached
      · intro id hid
        rw [hflat] at hid
        rcases List.mem_append.mp hid with h | h
        · exact s4 id (h2 id h)
        · exact s3 id h
  exact hgen srcs ({ statusCache := [], sources := [] } : RunState)
    (by simp [runSubmitted]) (by simp [runSubmitted])

/-- Witness for the amended C1: a complete oracle and two overlapping
sources; the shared id 2 is submitted at most once. -/
theorem claimC1_dedup_witness :
    (runSubmitted (runSources oracleSafe [[1, 2], [2, 3]])).flatten.count 2 ≤ 1 := by
  refine claimC1_dedup oracleSafe [[1, 2], [2, 3]] ?_ 2
  intro b
  exact ⟨b.map fun i => (i, { id := i, flagType := 0 }), rfl,
    fun id hid => lookupId_map_self _ b id hid⟩

end RobloxHell
